import Mathlib

/-!
Verification development for the simulation core of the `Test2` turn-based
dungeon crawler (`game.py`): procedural map generation with a connectivity
pass, combat with timed status effects, per-role enemy behaviour, the player
turn handling, save-game loading, and the autoplay planner.

Conventions of the shallow embedding:
* Python `int` becomes `ℤ` (coordinates, hit points, powers, durations);
  grid dimensions become `ℕ`.
* The mutable `Game` object becomes a `Game` structure threaded through
  functions; methods that mutate `self` return the updated structure.
* `random.Random` is abstracted as a stream of naturals (`RNG`);
  each draw reads the next stream element.  Quantifying over all streams covers
  all seeds.
* Python floats appear only as the literals `0.45`, `0.4`, `0.5`, `0.3`,
  and the damage multipliers `1.0` / `2.0`.  For the integer operands the
  program applies them to, IEEE double arithmetic agrees exactly with the
  rational arithmetic used here, so they are embedded as exact rationals
  (`ℚ`) / exact integer fractions.
* Python's builtin `round` (banker's rounding) is embedded as `pyRound`.
-/

namespace Crawler

abbrev Pos := ℤ × ℤ

/-- `class Door` of game.py (the `open` flag is named `opened` because `open`
is a Lean keyword). -/
structure Door where
  x : ℤ
  y : ℤ
  opened : Bool
  locked : Bool
deriving Repr, DecidableEq

/-- `class Map` of game.py.  `tiles` stores the per-tile `walkable` boolean;
the door dictionary keyed by position becomes an insertion-ordered list with
unique positions (lookup takes the first match, as the dict would). -/
structure DMap where
  w : ℕ
  h : ℕ
  tiles : List (List Bool)
  explored : List (List Bool)
  genType : String
  rooms : List (ℤ × ℤ × ℤ × ℤ)
  roomCenters : List Pos
  doors : List Door
deriving Repr, DecidableEq

/-- `Map.in_bounds`. -/
def DMap.inBounds (m : DMap) (x y : ℤ) : Bool :=
  0 ≤ x && x < (m.w : ℤ) && 0 ≤ y && y < (m.h : ℤ)

/-- Read entry `(x, y)` of a row-major boolean grid (`self.tiles[y][x]`);
callers check bounds first, out-of-range reads default to `false`. -/
def gridGet (t : List (List Bool)) (x y : ℤ) : Bool :=
  if 0 ≤ x ∧ 0 ≤ y then (t.getD y.toNat []).getD x.toNat false else false

/-- Write entry `(x, y)` of a row-major boolean grid. -/
def gridSet (t : List (List Bool)) (x y : ℤ) (b : Bool) : List (List Bool) :=
  if 0 ≤ x ∧ 0 ≤ y then t.set y.toNat ((t.getD y.toNat []).set x.toNat b) else t

/-- `Map.is_walkable`. -/
def DMap.isWalkable (m : DMap) (x y : ℤ) : Bool :=
  m.inBounds x y && gridGet m.tiles x y

/-- `Map.door_at` (dict lookup by position). -/
def DMap.doorAt (m : DMap) (x y : ℤ) : Option Door :=
  m.doors.find? (fun d => d.x == x && d.y == y)

/-- `Map.has_door`. -/
def DMap.hasDoor (m : DMap) (x y : ℤ) : Bool :=
  (m.doorAt x y).isSome

/-- `Map.blocks_sight`: walls block, closed doors block. -/
def DMap.blocksSight (m : DMap) (x y : ℤ) : Bool :=
  if ¬ m.inBounds x y then true
  else if ¬ gridGet m.tiles x y then true
  else match m.doorAt x y with
    | some d => !d.opened
    | none => false

/-- `Map.carve`. -/
def DMap.carve (m : DMap) (x y : ℤ) : DMap :=
  if m.inBounds x y then { m with tiles := gridSet m.tiles x y true } else m

/-!
`Map._flood_fill_reachable` / `Map._enforce_connected`.

The source runs a stack-based flood fill over the four axis neighbours of
walkable cells, starting from `(sx, sy)`, and marks exactly the walkable
cells connected to the start through walkable cells.  We compute the same
set as the `w*h`-th iterate of one-step neighbourhood expansion, which is
provably its fixpoint (`reachSet_isFixpoint`) and provably that connected
set (`mem_reachSet_iff` below).
-/

/-- The four-neighbour successors of `p` that are walkable (the cells the
flood fill pushes on its stack). -/
def neighList (m : DMap) (p : Pos) : List Pos :=
  [(p.1 + 1, p.2), (p.1 - 1, p.2), (p.1, p.2 + 1), (p.1, p.2 - 1)].filter
    (fun q => m.isWalkable q.1 q.2)

/-- One expansion step of the flood fill frontier. -/
def expandReach (m : DMap) (s : Finset Pos) : Finset Pos :=
  s ∪ s.biUnion (fun p => (neighList m p).toFinset)

/-- The start set of the flood fill: the start cell if it is walkable. -/
def reachInit (m : DMap) (s : Pos) : Finset Pos :=
  if m.isWalkable s.1 s.2 then {s} else ∅

/-- The set of walkable cells the flood fill marks reachable from `s`. -/
def reachSet (m : DMap) (s : Pos) : Finset Pos :=
  (expandReach m)^[m.w * m.h] (reachInit m s)

/-- Build an `h × w` boolean grid from a per-cell function. -/
def buildTiles (w h : ℕ) (f : ℕ → ℕ → Bool) : List (List Bool) :=
  (List.range h).map (fun y => (List.range w).map (fun x => f x y))

/-- `Map._enforce_connected`: every walkable tile not reachable from the
start is reverted to wall. -/
def enforceConnected (m : DMap) (s : Pos) : DMap :=
  { m with tiles := buildTiles m.w m.h (fun x y =>
      m.isWalkable (x : ℤ) (y : ℤ) && decide (((x : ℤ), (y : ℤ)) ∈ reachSet m s)) }

/-- One step of 4-directional movement through walkable tiles: `q` is a
walkable axis neighbour of `p` (the edge relation of the flood fill). -/
def adjStep (m : DMap) (p q : Pos) : Prop :=
  q ∈ neighList m p

instance (m : DMap) (p q : Pos) : Decidable (adjStep m p q) := by
  unfold adjStep; infer_instance

/-- `p` is reachable from `s` via 4-directional steps through walkable
tiles (the connectivity notion of the specification). -/
def reaches (m : DMap) (s p : Pos) : Prop :=
  m.isWalkable s.1 s.2 = true ∧ Relation.ReflTransGen (adjStep m) s p

/-- All walkable in-bounds cells of the grid (the universe the flood fill
lives in; used to bound its iteration count). -/
def walkCells (m : DMap) : Finset Pos :=
  (((Finset.range m.w) ×ˢ (Finset.range m.h)).image
      (fun q => ((q.1 : ℤ), (q.2 : ℤ)))).filter
    (fun p => m.isWalkable p.1 p.2 = true)

/-!
`random.Random` is abstracted as a stream of naturals together with a read
index; each primitive draw consumes one stream element.  Ranging over all
streams ranges over all outcome sequences, which subsumes "for any seed".
-/

structure RNG where
  seq : ℕ → ℕ
  idx : ℕ

/-- Consume one stream element. -/
def RNG.next (r : RNG) : ℕ × RNG :=
  (r.seq r.idx, { r with idx := r.idx + 1 })

/-- `rng.randint(lo, hi)`: a value in `[lo, hi]` (the source only calls it
with `lo ≤ hi`, enforced by `max` guards). -/
def RNG.randint (r : RNG) (lo hi : ℤ) : ℤ × RNG :=
  let (n, r') := r.next
  if lo ≤ hi then (lo + (n : ℤ) % (hi - lo + 1), r') else (lo, r')

/-- `rng.random() < num/den`: an arbitrary boolean decision (the stream
element modulo `den` compared against `num`). -/
def RNG.randLt (r : RNG) (num den : ℕ) : Bool × RNG :=
  let (n, r') := r.next
  (decide (n % den < num), r')

/-- `rng.choice(l)` with an explicit default for the (never exercised)
empty-list case. -/
def RNG.choiceD {α : Type} (r : RNG) (l : List α) (dflt : α) : α × RNG :=
  let (n, r') := r.next
  (l.getD (n % l.length) dflt, r')

/-- Swap two positions of a list (helper for the shuffle model). -/
def listSwap {α : Type} (l : List α) (i j : ℕ) : List α :=
  match l.get? i, l.get? j with
  | some a, some b => (l.set i b).set j a
  | _, _ => l

/-- Fisher–Yates walk for `rng.shuffle`, swapping position `i+1` with a
drawn position `≤ i+1`, descending. -/
def shuffleAux {α : Type} : ℕ → List α → RNG → List α × RNG
  | 0, l, r => (l, r)
  | i + 1, l, r =>
    let (n, r') := r.next
    shuffleAux i (listSwap l (i + 1) (n % (i + 2))) r'

/-- `rng.shuffle(l)` (an in-place Fisher–Yates shuffle in the source). -/
def RNG.shuffle {α : Type} (r : RNG) (l : List α) : List α × RNG :=
  shuffleAux (l.length - 1) l r

/-- Python floor division `//` on integers. -/
def pyFloorDiv (a b : ℤ) : ℤ := Int.fdiv a b

/-- An all-wall `h × w` tile grid (`[[Tile(False) ...] ...]`). -/
def emptyGrid (w h : ℕ) : List (List Bool) :=
  List.replicate h (List.replicate w false)

/-- The direction list of the drunkard walk. -/
def cavesDirs : List (ℤ × ℤ) := [(1, 0), (-1, 0), (0, 1), (0, -1)]

/-- The drunkard-walk carving loop of `Map.generate_caves`.  The fuel is the
remaining attempt budget (`max_attempts - attempts`), decremented exactly
once per loop iteration as in the source. -/
def caveWalk (target : ℕ) : ℕ → DMap → RNG → ℤ → ℤ → ℕ → DMap × RNG
  | 0, m, rng, _, _, _ => (m, rng)
  | fuel + 1, m, rng, x, y, carved =>
    if carved < target then
      let (d, rng') := rng.choiceD cavesDirs (0, 0)
      let nx := x + d.1
      let ny := y + d.2
      if 1 ≤ nx ∧ nx < (m.w : ℤ) - 1 ∧ 1 ≤ ny ∧ ny < (m.h : ℤ) - 1 then
        if gridGet m.tiles nx ny then
          caveWalk target fuel m rng' nx ny carved
        else
          caveWalk target fuel { m with tiles := gridSet m.tiles nx ny true } rng' nx ny
            (carved + 1)
      else
        caveWalk target fuel m rng' x y carved
    else (m, rng)

/-- `Map.generate_caves`.  `int(w*h*0.45)` is exact rational arithmetic on
these operands, i.e. `(9*w*h)/20` rounded down. -/
def generateCaves (m0 : DMap) (rng : RNG) : DMap × RNG :=
  let m := { m0 with genType := "caves", rooms := [], roomCenters := [], doors := [],
                     tiles := emptyGrid m0.w m0.h, explored := emptyGrid m0.w m0.h }
  let startX : ℤ := (m.w / 2 : ℕ)
  let startY : ℤ := (m.h / 2 : ℕ)
  let m := m.carve startX startY
  let target := 9 * m.w * m.h / 20
  let res := caveWalk target (m.w * m.h * 50) m rng startX startY 1
  (enforceConnected res.1 (startX, startY), res.2)

/-- `Map._intersect` on inclusive rectangles. -/
def rectIntersect (r1 r2 : ℤ × ℤ × ℤ × ℤ) : Bool :=
  let (ax1, ay1, ax2, ay2) := r1
  let (bx1, by1, bx2, by2) := r2
  !(ax2 < bx1 || bx2 < ax1 || ay2 < by1 || by2 < ay1)

/-- `Map._center`. -/
def rectCenter (r : ℤ × ℤ × ℤ × ℤ) : Pos :=
  (pyFloorDiv (r.1 + r.2.2.1) 2, pyFloorDiv (r.2.1 + r.2.2.2) 2)

/-- Inclusive integer range `[lo, hi]` as a list. -/
def intRange (lo hi : ℤ) : List ℤ :=
  (List.range (hi + 1 - lo).toNat).map (fun i => lo + (i : ℤ))

/-- `Map._carve_rect` (clamped to the interior of the grid). -/
def carveRect (m : DMap) (r : ℤ × ℤ × ℤ × ℤ) : DMap :=
  let (x1, y1, x2, y2) := r
  { m with tiles :=
      (intRange (max 1 y1) (min ((m.h : ℤ) - 2) y2)).foldl (fun t y =>
        (intRange (max 1 x1) (min ((m.w : ℤ) - 2) x2)).foldl (fun t x =>
          gridSet t x y true) t) m.tiles }

/-- `Map._place_door`: no duplicate doors, never on a wall. -/
def placeDoor (m : DMap) (x y : ℤ) : DMap :=
  if ¬ m.inBounds x y then m
  else if m.hasDoor x y then m
  else if ¬ gridGet m.tiles x y then m
  else { m with doors := m.doors ++ [Door.mk x y false false] }

/-- The room rejection-sampling loop of `Map.generate_rooms`; the fuel is
the remaining `attempts` counter. -/
def placeRooms : ℕ → ℕ → DMap → RNG → DMap × RNG
  | 0, _, m, rng => (m, rng)
  | att + 1, n, m, rng =>
    if m.rooms.length < n then
      let d1 := rng.randint 4 (max 4 (min 10 (pyFloorDiv (m.w : ℤ) 5)))
      let d2 := d1.2.randint 3 (max 3 (min 8 (pyFloorDiv (m.h : ℤ) 5)))
      let d3 := d2.2.randint 1 (max 1 ((m.w : ℤ) - d1.1 - 2))
      let d4 := d3.2.randint 1 (max 1 ((m.h : ℤ) - d2.1 - 2))
      let rect := (d3.1, d4.1, d3.1 + d1.1 - 1, d4.1 + d2.1 - 1)
      let inflated := (d3.1 - 1, d4.1 - 1, d3.1 + d1.1, d4.1 + d2.1)
      if m.rooms.any (fun r => rectIntersect inflated r) then
        placeRooms att n m d4.2
      else
        placeRooms att n (carveRect { m with rooms := m.rooms ++ [rect] } rect) d4.2
    else (m, rng)

/-- Stable insertion into a sorted list: the new element goes after all
elements whose key is `≤` its own (matching Python's stable `list.sort`). -/
def insertSorted {α : Type} (le : α → α → Bool) (a : α) : List α → List α
  | [] => [a]
  | b :: l => if le b a then b :: insertSorted le a l else a :: b :: l

/-- Stable sort (insertion sort); for a total preorder `le` this agrees
with Python's stable `list.sort`. -/
def insSortBy {α : Type} (le : α → α → Bool) (l : List α) : List α :=
  l.foldl (fun acc a => insertSorted le a acc) []

/-- First room (by index) containing `(x, y)`, as in the corridor loop's
linear scan. -/
def firstRoomIdx (rooms : List (ℤ × ℤ × ℤ × ℤ)) (x y : ℤ) : Option ℕ :=
  rooms.findIdx? (fun r => decide (r.1 ≤ x ∧ x ≤ r.2.2.1 ∧ r.2.1 ≤ y ∧ y ≤ r.2.2.2))

/-- One corridor tile of the corridor loop body: carve, maybe widen
sideways, place a door on a corridor→room boundary crossing, update the
`prev_in_room` tracker.  Out-of-interior tiles are skipped entirely. -/
def corridorTile (st : DMap × RNG × Option ℕ) (p : Pos) : DMap × RNG × Option ℕ :=
  let m := st.1
  let prev := st.2.2
  let x := p.1
  let y := p.2
  if 1 ≤ x ∧ x < (m.w : ℤ) - 1 ∧ 1 ≤ y ∧ y < (m.h : ℤ) - 1 then
    let m1 := { m with tiles := gridSet m.tiles x y true }
    let wd := st.2.1.randLt 1 4
    let m2 :=
      if wd.1 then
        [((1 : ℤ), (0 : ℤ)), (-1, 0)].foldl (fun m d =>
          let nx := x + d.1
          let ny := y + d.2
          if 1 ≤ nx ∧ nx < (m.w : ℤ) - 1 ∧ 1 ≤ ny ∧ ny < (m.h : ℤ) - 1 then
            { m with tiles := gridSet m.tiles nx ny true }
          else m) m1
      else m1
    let inIdx := firstRoomIdx m2.rooms x y
    let m3 :=
      if inIdx.isSome ∧ (prev.isNone ∨ prev ≠ inIdx) then placeDoor m2 x y else m2
    (m3, wd.2, inIdx)
  else (m, st.2.1, prev)

/-- One L-shaped corridor between consecutive rooms of the sorted order,
with a drawn bend direction. -/
def carveCorridor (m : DMap) (rng : RNG) (a b : ℤ × ℤ × ℤ × ℤ) : DMap × RNG :=
  let ax := (rectCenter a).1
  let ay := (rectCenter a).2
  let bx := (rectCenter b).1
  let by_ := (rectCenter b).2
  let coin := rng.randLt 1 2
  let path :=
    if coin.1 then
      (intRange (min ax bx) (max ax bx)).map (fun x => (x, ay)) ++
        (intRange (min ay by_) (max ay by_)).map (fun y => (bx, y))
    else
      (intRange (min ay by_) (max ay by_)).map (fun y => (ax, y)) ++
        (intRange (min ax bx) (max ax bx)).map (fun x => (x, by_))
  let fr := path.foldl corridorTile (m, coin.2, (none : Option ℕ))
  (fr.1, fr.2.1)

/-- Mark the drawn number of doors (at the shuffled leading positions) as
locked and closed. -/
def lockDoors (m : DMap) (locked : List (ℤ × ℤ)) : DMap :=
  { m with doors := m.doors.map (fun d =>
      if (d.x, d.y) ∈ locked then { d with locked := true, opened := false } else d) }

/-- The sort key of the room connection order: lexicographic on the room
centre's `(x, y)` (the `key=lambda i: (cx, cy)` of the source). -/
def centerKeyLe (cs : List Pos) (i j : ℕ) : Bool :=
  decide ((cs.getD i (0, 0)).1 < (cs.getD j (0, 0)).1 ∨
    ((cs.getD i (0, 0)).1 = (cs.getD j (0, 0)).1 ∧
      (cs.getD i (0, 0)).2 ≤ (cs.getD j (0, 0)).2))

/-- The room/corridor carving phase of `Map.generate_rooms`: everything up
to (but not including) the connectivity pass. -/
def roomsCarvePhase (m0 : DMap) (rng : RNG) (minRooms maxRooms : ℤ) : DMap × RNG :=
  let m := { m0 with genType := "rooms", rooms := [], roomCenters := [], doors := [],
                     tiles := emptyGrid m0.w m0.h, explored := emptyGrid m0.w m0.h }
  let draw := rng.randint (max 1 minRooms) (max 2 maxRooms)
  let nR := draw.1.toNat
  let pl := placeRooms (nR * 8) nR m draw.2
  let m1 :=
    if pl.1.rooms.isEmpty then
      let hall := ((2 : ℤ), (2 : ℤ), ((pl.1).w : ℤ) - 3, ((pl.1).h : ℤ) - 3)
      { carveRect pl.1 hall with rooms := [hall] }
    else pl.1
  let m2 := { m1 with roomCenters := m1.rooms.map rectCenter }
  let order := insSortBy (centerKeyLe m2.roomCenters) (List.range m2.rooms.length)
  let pairs := order.zip order.tail
  pairs.foldl (fun st pr =>
      carveCorridor st.1 st.2 (st.1.rooms.getD pr.1 (0, 0, 0, 0))
        (st.1.rooms.getD pr.2 (0, 0, 0, 0))) (m2, pl.2)

/-- The start of the rooms-mode connectivity pass: the first room's centre
(with the source's fallback to the grid centre when there are no rooms,
which the room-placement fallback makes unreachable). -/
def roomsStart (m : DMap) : Pos :=
  match m.rooms.head? with
  | some r => rectCenter r
  | none => (((m.w / 2 : ℕ) : ℤ), ((m.h / 2 : ℕ) : ℤ))

/-- The tail of `Map.generate_rooms`: the connectivity pass from the first
room's centre, then marking zero to two doors locked. -/
def roomsFinish (m : DMap) (rng : RNG) : DMap × RNG :=
  let s := roomsStart m
  let me := enforceConnected m s
  let doorKeys := me.doors.map (fun d => (d.x, d.y))
  if doorKeys.isEmpty then (me, rng)
  else
    let cnt := rng.randint 0 (min 2 (doorKeys.length : ℤ))
    let shf := cnt.2.shuffle doorKeys
    (lockDoors me (shf.1.take cnt.1.toNat), shf.2)

/-- `Map.generate_rooms` (with the default `min_rooms = 8`,
`max_rooms = 14` of the only call site). -/
def generateRooms (m0 : DMap) (rng : RNG) (minRooms maxRooms : ℤ) : DMap × RNG :=
  let cp := roomsCarvePhase m0 rng minRooms maxRooms
  roomsFinish cp.1 cp.2

/-- `Map.generate`: dispatch on the generator kind. -/
def DMap.generate (m : DMap) (rng : RNG) : DMap × RNG :=
  if m.genType = "rooms" then generateRooms m rng 8 14 else generateCaves m rng

/-- The generation start tile the connectivity pass uses: the grid centre in
caves mode, the first room's centre in rooms mode. -/
def genStart (m : DMap) : Pos :=
  if m.genType = "rooms" then roomsStart m
  else (((m.w / 2 : ℕ) : ℤ), ((m.h / 2 : ℕ) : ℤ))

/-!
### Entities, timed effects and combat

An effect entry `name -> {"dur": d, ...params}` is embedded as a record
holding the union of the parameters the program ever stores (`atk` for
Frenzy/Hex, `temp` for Shield, `mul` for Aim).  A parameter a `_set_effect`
call does not pass is stored at the default the read sites'
`.get(..., default)` would produce (`atk = 1`, `temp = 0`, `mul = 2.0`),
which is observationally identical to leaving the key absent.
-/

structure EffectData where
  dur : ℤ
  atk : ℤ
  temp : ℤ
  mul : ℚ
deriving Repr, DecidableEq

structure Entity where
  x : ℤ
  y : ℤ
  ch : String
  name : String
  hp : ℤ
  maxHp : ℤ
  power : ℤ
  effects : List (String × EffectData)
deriving Repr, DecidableEq

/-- `Entity.is_alive`. -/
def Entity.isAlive (e : Entity) : Bool := 0 < e.hp

structure Item where
  x : ℤ
  y : ℤ
  kind : String
deriving Repr, DecidableEq

/-- The mutable `Game` object (the fields the simulation core reads or
writes; colours, menu navigation and render-only state are omitted).  The
run metrics mirror the `run_*` counters. -/
structure Game where
  state : String
  turn : ℤ
  seed : ℤ
  map : DMap
  player : Entity
  enemies : List Entity
  exitPos : Option Pos
  items : List Item
  invPotion : ℤ
  invKey : ℤ
  visibleG : List (List Bool)
  log : List String
  rng : RNG
  menuTier : ℤ
  autoPlay : Bool
  flashPositions : List Pos
  damageEvents : List (ℤ × ℤ × ℤ)
  corpses : List (ℤ × ℤ × String)
  runKills : ℤ
  runDmgDealt : ℤ
  runDmgTaken : ℤ
  runItemsUsed : ℤ
  runKillsByRole : List (String × ℤ)
  runTimesHexed : ℤ
  runShotsDodged : ℤ

/-- ASCII lowering of one character (`str.lower` on the ASCII names the
game uses). -/
def charLower (c : Char) : Char :=
  if 'A' ≤ c ∧ c ≤ 'Z' then Char.ofNat (c.toNat + 32) else c

/-- `str.lower` for the entity names (all ASCII). -/
def strToLower (s : String) : String := ⟨s.data.map charLower⟩

/-- `Logger.log` with its 1000-line capacity trim. -/
def addLog (g : Game) (msg : String) : Game :=
  let l := g.log ++ [msg]
  { g with log := if 1000 < l.length then l.drop (l.length - 1000) else l }

/-- `Game._get_effect`. -/
def getEffect (e : Entity) (name : String) : Option EffectData :=
  (e.effects.find? (fun kv => kv.1 == name)).map (fun kv => kv.2)

/-- `Game._set_effect`: a dict update keeps an existing key's slot, a new
key is appended. -/
def setEffect (e : Entity) (name : String) (ed : EffectData) : Entity :=
  if e.effects.any (fun kv => kv.1 == name) then
    { e with effects := e.effects.map (fun kv => if kv.1 == name then (name, ed) else kv) }
  else { e with effects := e.effects ++ [(name, ed)] }

/-- `Game._remove_effect`. -/
def removeEffect (e : Entity) (name : String) : Entity :=
  { e with effects := e.effects.filter (fun kv => kv.1 != name) }

/-- `Game._decay_effects`: decrement every duration by 1 and drop entries
whose duration has reached 0 (or below). -/
def decayEffects (e : Entity) : Entity :=
  { e with effects := e.effects.filterMap (fun kv =>
      if kv.2.dur - 1 ≤ 0 then none
      else some (kv.1, { kv.2 with dur := kv.2.dur - 1 })) }

/-- `Game._atk_mod`: Frenzy bonus minus the absolute Hex penalty, counting
only effects with positive remaining duration. -/
def atkMod (e : Entity) : ℤ :=
  (match getEffect e "Frenzy" with
    | some f => if 0 < f.dur then f.atk else 0
    | none => 0) -
  (match getEffect e "Hex" with
    | some h => if 0 < h.dur then |h.atk| else 0
    | none => 0)

/-- `Game._apply_shield`: the temporary pool stacks onto an existing one. -/
def applyShield (e : Entity) (amount dur : ℤ) : Entity :=
  let temp :=
    match getEffect e "Shield" with
    | some sh => sh.temp
    | none => 0
  setEffect e "Shield" ⟨dur, 1, temp + amount, 2⟩

/-- `Game._apply_frenzy`. -/
def applyFrenzy (e : Entity) (atkBonus dur : ℤ) : Entity :=
  setEffect e "Frenzy" ⟨dur, atkBonus, 0, 2⟩

/-- The entity part of `Game._apply_hex` (the `run_times_hexed` metric is
incremented at the call that targets the player). -/
def applyHexEnt (e : Entity) (atkPenalty dur : ℤ) : Entity :=
  setEffect e "Hex" ⟨dur, atkPenalty, 0, 2⟩

/-- Round half to even of the fraction `a / b` (`b > 0`), written over the
integer numerator/denominator so the kernel can evaluate it: `f` is the
floor, `r ∈ [0, b)` the fractional part scaled by `b`, and the tie
`2r = b` goes to the even floor neighbour. -/
def pyRoundFrac (a b : ℤ) : ℤ :=
  let f := Int.fdiv a b
  let r := a - b * f
  if 2 * r < b then f
  else if b < 2 * r then f + 1
  else if f % 2 = 0 then f else f + 1

/-- Python 3 `round` on an exact rational: round half to even. -/
def pyRound (q : ℚ) : ℤ := pyRoundFrac q.num q.den

/-- The pre-shield damage of `Game._compute_damage`: `int(max(0,
round(base * mult)))` for `base = max(0, power + atk_mod)` and `mult` the
active Aim multiplier (default 1.0).  The product `base * mult` is the
exact rational `(base * mult.num) / mult.den`, rounded by
`pyRoundFrac`. -/
def incomingDamage (attacker : Entity) : ℤ :=
  let base : ℤ := max 0 (attacker.power + atkMod attacker)
  let mult : ℚ :=
    match getEffect attacker "Aim" with
    | some aim => if 0 < aim.dur then aim.mul else 1
    | none => 1
  max 0 (pyRoundFrac (base * mult.num) mult.den)

/-- `Game._compute_damage`.  The in-place mutation of the defender's
shield pool (`sh["temp"] = temp - absorbed`) is modelled by returning the
updated defender next to the post-absorption damage. -/
def computeDamage (attacker defender : Entity) : ℤ × Entity :=
  let dmg0 := incomingDamage attacker
  match getEffect defender "Shield" with
  | some sh =>
    if 0 < sh.dur ∧ 0 < sh.temp then
      let absorbed := min dmg0 sh.temp
      (max 0 (dmg0 - absorbed),
        setEffect defender "Shield" { sh with temp := sh.temp - absorbed })
    else (max 0 dmg0, defender)
  | none => (max 0 dmg0, defender)

/-- A Python reference to an entity: the player (`none`) or the `i`-th
enemy of the roster. -/
abbrev ERef := Option ℕ

def getEnt (g : Game) (r : ERef) : Entity :=
  match r with
  | none => g.player
  | some i => g.enemies.getD i g.player

def setEnt (g : Game) (r : ERef) (e : Entity) : Game :=
  match r with
  | none => { g with player := e }
  | some i => { g with enemies := g.enemies.set i e }

/-- Increment an entry of the `run_kills_by_role` dict. -/
def bumpRole (l : List (String × ℤ)) (name : String) : List (String × ℤ) :=
  if l.any (fun kv => kv.1 == name) then
    l.map (fun kv => if kv.1 == name then (kv.1, kv.2 + 1) else kv)
  else l ++ [(name, 1)]

/-- The logging / event / death-handling / metrics tail of `Game.attack`
(everything after the defender has been written back); it touches no
entity. -/
def attackAux (g1 : Game) (ar dr : ERef) (a d2 : Entity) (dmg : ℤ) : Game :=
  let g2 := { g1 with flashPositions := g1.flashPositions ++ [(d2.x, d2.y)],
                      damageEvents := g1.damageEvents ++ [(d2.x, d2.y, dmg)] }
  let g3 :=
    if ar = none then addLog g2 ("You hit " ++ d2.name ++ " for " ++ toString dmg ++ ".")
    else if dr = none then addLog g2 (a.name ++ " hits you for " ++ toString dmg ++ ".")
    else addLog g2 (a.name ++ " hits " ++ d2.name ++ " for " ++ toString dmg ++ ".")
  let g4 :=
    if d2.hp ≤ 0 then
      if dr = none then { addLog g3 "You died!" with state := "game_over" }
      else
        let ga := addLog g3 (d2.name ++ " dies.")
        let gb := { ga with corpses := ga.corpses ++ [(d2.x, d2.y, d2.name)] }
        if ar = none then { gb with runKillsByRole := bumpRole gb.runKillsByRole d2.name }
        else gb
    else g3
  let g5 :=
    if ar = none then
      { g4 with runDmgDealt := g4.runDmgDealt + dmg,
                runKills := g4.runKills + (if d2.hp ≤ 0 then 1 else 0) }
    else g4
  if dr = none then { g5 with runDmgTaken := g5.runDmgTaken + dmg } else g5

/-- `Game.attack` (the digest is absent, so combat messages go straight to
the logger as in the source's non-digest path; the damage-event record
keeps the position and amount). -/
def attack (g : Game) (ar dr : ERef) : Game :=
  let a := getEnt g ar
  let d := getEnt g dr
  let cd := computeDamage a d
  let d2 := { cd.2 with hp := cd.2.hp - cd.1 }
  attackAux (setEnt g dr d2) ar dr a d2 cd.1

/-- Whether the entity has an `Aim` effect with positive remaining
duration (the damage-multiplier gate of `_compute_damage`). -/
def aimActiveB (e : Entity) : Bool :=
  match getEffect e "Aim" with
  | some a' => decide (0 < a'.dur)
  | none => false

/-- First living enemy at a position (`next((e for e in enemies ...))`). -/
def enemyIdxAt (g : Game) (x y : ℤ) : Option ℕ :=
  g.enemies.findIdx? (fun e => e.x == x && e.y == y && e.isAlive)

/-- `Game.is_blocked`. -/
def isBlocked (g : Game) (x y : ℤ) : Bool :=
  if ¬ g.map.isWalkable x y then true
  else if (match g.map.doorAt x y with | some d => !d.opened | none => false) then true
  else if g.player.x == x && g.player.y == y && g.player.isAlive then true
  else g.enemies.any (fun e => e.x == x && e.y == y && e.isAlive)

/-- `Game._is_occupied`. -/
def isOccupied (g : Game) (x y : ℤ) : Bool :=
  (g.player.isAlive && g.player.x == x && g.player.y == y) ||
    g.enemies.any (fun e => e.isAlive && e.x == x && e.y == y)

/-- `Game._pickup_items_at`. -/
def pickupItemsAt (g : Game) (x y : ℤ) : Game :=
  let here := g.items.filter (fun it => it.x == x && it.y == y)
  let remaining := g.items.filter (fun it => !(it.x == x && it.y == y))
  let picked : ℤ := ((here.filter (fun it => it.kind == "potion")).length : ℕ)
  let pickedKeys : ℤ := ((here.filter (fun it => it.kind == "key")).length : ℕ)
  let g1 := { g with invPotion := g.invPotion + picked, invKey := g.invKey + pickedKeys }
  let g2 :=
    if 0 < picked then
      addLog { g1 with items := remaining } ("Picked up Potion x" ++ toString picked ++ ".")
    else g1
  if 0 < pickedKeys then
    addLog { g2 with items := remaining } ("Picked up Key x" ++ toString pickedKeys ++ ".")
  else g2

/-- `Game._on_victory`. -/
def onVictory (g : Game) : Game :=
  addLog { g with state := "victory" } "Victory!"

/-- Open (or close) the door at a position. -/
def setDoorOpened (m : DMap) (x y : ℤ) (b : Bool) : DMap :=
  { m with doors := m.doors.map (fun d =>
      if d.x == x && d.y == y then { d with opened := b } else d) }

/-- The tail of a successful `Game.move_entity` step: place the entity,
and for the player pick up items and check the exit tile. -/
def finishMove (g : Game) (ref : ERef) (nx ny : ℤ) : Game :=
  let g1 := setEnt g ref { getEnt g ref with x := nx, y := ny }
  match ref with
  | none =>
    let g2 := pickupItemsAt g1 nx ny
    match g2.exitPos with
    | some ep => if ep = (nx, ny) then onVictory g2 else g2
    | none => g2
  | some _ => g1

/-- `Game.move_entity`. -/
def moveEntity (g : Game) (ref : ERef) (dx dy : ℤ) (attackOnBlock : Bool) : Game :=
  let ent := getEnt g ref
  let nx := ent.x + dx
  let ny := ent.y + dy
  if ¬ g.map.inBounds nx ny then g
  else if g.map.isWalkable nx ny then
    let target : Option ERef :=
      match ref with
      | none => (enemyIdxAt g nx ny).map some
      | some _ =>
        if g.player.x == nx && g.player.y == ny && g.player.isAlive then some none else none
    match target with
    | some tgt => if attackOnBlock then attack g ref tgt else g
    | none =>
      match g.map.doorAt nx ny with
      | some d =>
        if ¬ d.opened then
          match ref with
          | none =>
            if d.locked ∧ g.invKey ≤ 0 then addLog g "Auto: need Key"
            else
              let gd := { g with map := setDoorOpened g.map nx ny true }
              let gd2 := if gd.autoPlay then addLog gd "Auto: door→open" else gd
              finishMove gd2 ref nx ny
          | some _ =>
            if d.locked then g
            else finishMove { g with map := setDoorOpened g.map nx ny true } ref nx ny
        else finishMove g ref nx ny
      | none => finishMove g ref nx ny
  else g

/-- `Game.use_potion`; the boolean is whether the turn was consumed. -/
def usePotion (g : Game) (manual : Bool) : Bool × Game :=
  if g.invPotion ≤ 0 then
    (false, if manual then addLog g "No Potion." else g)
  else if g.player.maxHp ≤ g.player.hp then
    (false, if manual then addLog g "Already full HP." else g)
  else
    let before := g.player.hp
    let newHp := min g.player.maxHp (g.player.hp + 8)
    let g1 := { g with player := { g.player with hp := newHp },
                       invPotion := g.invPotion - 1,
                       runItemsUsed := g.runItemsUsed + 1 }
    (true,
      if manual then addLog g1 ("You drink a Potion. +" ++ toString (newHp - before) ++ " HP")
      else addLog g1 "Auto: use Potion")

/-- The movement-key table of `Game.handle_player_action`. -/
def dirOfKey (key : String) : Option (ℤ × ℤ) :=
  if key = "UP" ∨ key = "w" ∨ key = "W" then some (0, -1)
  else if key = "DOWN" ∨ key = "s" ∨ key = "S" then some (0, 1)
  else if key = "LEFT" ∨ key = "a" ∨ key = "A" then some (-1, 0)
  else if key = "RIGHT" ∨ key = "d" ∨ key = "D" then some (1, 0)
  else none

/-- `Game.handle_player_action`; the boolean is whether the turn was
consumed.  For a direction key the source returns `True` whether or not
the position changed (the `# If didn't move, maybe attacked` path). -/
def handlePlayerAction (g : Game) (key : String) : Bool × Game :=
  if key = "." then (true, g)
  else if key = "U" then usePotion g true
  else
    match dirOfKey key with
    | some d => (true, moveEntity g none d.1 d.2 true)
    | none => (false, g)

/-!
### Line of sight, field of view

`Game.bresenham_line` is a loop that appends the current cell, stops at
the target, and otherwise advances `x` and/or `y` by the classic error
rule.  The fuel `|x1-x0| + |y1-y0| + 1` bounds the exact iteration count
`max(|x1-x0|, |y1-y0|) + 1` of the loop.
-/

def bresenhamAux (x1 y1 sx sy dx dy : ℤ) : ℕ → ℤ → ℤ → ℤ → List (ℤ × ℤ)
  | 0, _, _, _ => []
  | fuel + 1, x, y, err =>
    if x = x1 ∧ y = y1 then [(x, y)]
    else
      let e2 := 2 * err
      let err1 := if dy ≤ e2 then err + dy else err
      let x' := if dy ≤ e2 then x + sx else x
      let err2 := if e2 ≤ dx then err1 + dx else err1
      let y' := if e2 ≤ dx then y + sy else y
      (x, y) :: bresenhamAux x1 y1 sx sy dx dy fuel x' y' err2

/-- `Game.bresenham_line`. -/
def bresenhamLine (x0 y0 x1 y1 : ℤ) : List (ℤ × ℤ) :=
  let dx := |x1 - x0|
  let dy := -|y1 - y0|
  let sx : ℤ := if x0 < x1 then 1 else -1
  let sy : ℤ := if y0 < y1 then 1 else -1
  bresenhamAux x1 y1 sx sy dx dy (dx - dy + 1).toNat x0 y0 (dx + dy)

/-- The scan of `Game.has_los` over the traced line (first point already
dropped): success on reaching the target, failure at a sight-blocking
cell. -/
def losScan (m : DMap) (x1 y1 : ℤ) : List (ℤ × ℤ) → Bool
  | [] => true
  | (x, y) :: rest =>
    if x = x1 ∧ y = y1 then true
    else if m.blocksSight x y then false
    else losScan m x1 y1 rest

/-- `Game.has_los`. -/
def hasLos (m : DMap) (x0 y0 x1 y1 radius : ℤ) : Bool :=
  if radius * radius < (x1 - x0) ^ 2 + (y1 - y0) ^ 2 then false
  else losScan m x1 y1 ((bresenhamLine x0 y0 x1 y1).drop 1)

/-- `Game.recompute_fov` (`FOV_RADIUS = 8`); marks visible tiles explored. -/
def recomputeFov (g : Game) : Game :=
  { g with
    visibleG := buildTiles g.map.w g.map.h (fun x y =>
      hasLos g.map g.player.x g.player.y (x : ℤ) (y : ℤ) 8),
    map := { g.map with explored := buildTiles g.map.w g.map.h (fun x y =>
      gridGet g.map.explored (x : ℤ) (y : ℤ) ||
        hasLos g.map g.player.x g.player.y (x : ℤ) (y : ℤ) 8) } }

/-!
### The enemy phase (`Game.enemy_turns`)
-/

/-- The priest's shield candidates: the roster positions in order, then
the priest itself (`self.enemies + [e]`), restricted to living wounded
entities. -/
def priestCand (g : Game) (i : ℕ) : List ℕ :=
  ((List.range g.enemies.length) ++ [i]).filter (fun j =>
    let a := g.enemies.getD j g.player
    a.isAlive && a.hp < a.maxHp)

/-- Manhattan distance from enemy `j` to the priest's position. -/
def priestDist (g : Game) (ex ey : ℤ) (j : ℕ) : ℤ :=
  |(g.enemies.getD j g.player).x - ex| + |(g.enemies.getD j g.player).y - ey|

/-- The priest's shield target: head of the stable distance sort of the
candidates (`cand.sort(key=dist); cand[0]`). -/
def priestPick (g : Game) (i : ℕ) (ex ey : ℤ) : Option ℕ :=
  (insSortBy (fun j k => decide (priestDist g ex ey j ≤ priestDist g ex ey k))
    (priestCand g i)).head?

/-- The troll's end-of-turn regeneration (`+1`, or `+2` at tier 3). -/
def trollEndOfTurn (g : Game) (i : ℕ) (nameL : String) : Game :=
  if nameL = "troll" ∧ (getEnt g (some i)).isAlive then
    let e := getEnt g (some i)
    let regen : ℤ := if 3 ≤ g.menuTier then 2 else 1
    if 0 < e.hp ∧ e.hp < e.maxHp then
      let newHp := min e.maxHp (e.hp + regen)
      let g1 := setEnt g (some i) { e with hp := newHp }
      if e.hp < newHp then
        addLog g1 ("Troll regenerates (+" ++ toString (newHp - e.hp) ++ ")")
      else g1
    else g
  else g

/-- The wander directions of the no-line-of-sight default behaviour. -/
def wanderDirs : List (ℤ × ℤ) := [(1, 0), (-1, 0), (0, 1), (0, -1), (0, 0)]

/-- The role-specific action part of one enemy's turn; returns whether the
enemy `acted` together with the updated game. -/
def enemyRoleAction (g : Game) (i : ℕ) : Bool × Game :=
  let e := getEnt g (some i)
  let ex := e.x
  let ey := e.y
  let px := g.player.x
  let py := g.player.y
  let nameL := strToLower e.name
  if |ex - px| + |ey - py| = 1 then (true, attack g (some i) none)
  else if nameL = "archer" then
    let inLine := ex = px ∨ ey = py
    let has := if inLine then hasLos g.map ex ey px py 12 else false
    let within := 2 ≤ max |ex - px| |ey - py| ∧ max |ex - px| |ey - py| ≤ 5
    let aim := getEffect e "Aim"
    let aimcd := getEffect e "AimCD"
    let aimActive : Bool := match aim with | some a' => decide (0 < a'.dur) | none => false
    if aimActive then
      if has ∧ within then
        let cd0 := computeDamage e g.player
        let g1 := { g with player := cd0.2 }
        let g2 := attack g1 (some i) none
        let g3 := addLog g2 ("Archer shoots (-" ++ toString cd0.1 ++ ")")
        let g4 := setEnt g3 (some i) (removeEffect (getEnt g3 (some i)) "Aim")
        let cdv : ℤ := if g4.menuTier < 3 then 2 else 1
        (true, setEnt g4 (some i) (setEffect (getEnt g4 (some i)) "AimCD" ⟨cdv, 1, 0, 2⟩))
      else (false, setEnt g (some i) (removeEffect e "Aim"))
    else if aimcd.isNone ∧ has ∧ within then
      let g1 := setEnt g (some i) (setEffect e "Aim" ⟨1, 1, 0, 2⟩)
      (true, addLog g1 "Archer aims")
    else (false, g)
  else if nameL = "priest" then
    match priestPick g i ex ey with
    | some j =>
      let tgt := getEnt g (some j)
      let g1 := setEnt g (some j) (applyShield tgt 3 3)
      (true, addLog g1 ("Priest shields " ++ tgt.name ++ " (+3 temp)"))
    | none => (false, g)
  else if nameL = "shaman" then
    let alliesNear := (List.range g.enemies.length).filter (fun j =>
      decide (j ≠ i) && (g.enemies.getD j g.player).isAlive &&
        decide (|(g.enemies.getD j g.player).x - ex| + |(g.enemies.getD j g.player).y - ey| ≤ 3))
    let shouldFrenzy := 2 ≤ alliesNear.length ∨ (3 ≤ g.menuTier ∧ 1 ≤ alliesNear.length)
    if shouldFrenzy ∧ alliesNear ≠ [] then
      let ch := g.rng.choiceD alliesNear 0
      let g1 := { g with rng := ch.2 }
      let tgt := getEnt g1 (some ch.1)
      let g2 := setEnt g1 (some ch.1) (applyFrenzy tgt 1 3)
      (true, addLog g2 ("Shaman empowers " ++ tgt.name ++ " (+1 ATK)"))
    else
      let g1 := { g with player := applyHexEnt g.player 1 3,
                         runTimesHexed := g.runTimesHexed + 1 }
      (true, addLog g1 "Shaman hexes Player (-1 ATK)")
  else (false, g)

/-- The default movement of an enemy that took no special action. -/
def enemyDefaultMove (g : Game) (i : ℕ) (ex ey px py : ℤ) : Game :=
  if hasLos g.map ex ey px py 12 then
    let dx : ℤ := if ex = px then 0 else if ex < px then 1 else -1
    let dy : ℤ := if ey = py then 0 else if ey < py then 1 else -1
    if |py - ey| ≤ |px - ex| then
      if ¬ isBlocked g (ex + dx) ey then
        setEnt g (some i) { getEnt g (some i) with x := ex + dx }
      else if ¬ isBlocked g ex (ey + dy) then
        setEnt g (some i) { getEnt g (some i) with y := ey + dy }
      else g
    else
      if ¬ isBlocked g ex (ey + dy) then
        setEnt g (some i) { getEnt g (some i) with y := ey + dy }
      else if ¬ isBlocked g (ex + dx) ey then
        setEnt g (some i) { getEnt g (some i) with x := ex + dx }
      else g
  else
    let c1 := g.rng.randLt 3 10
    let g1 := { g with rng := c1.2 }
    if c1.1 then
      let c2 := g1.rng.choiceD wanderDirs (0, 0)
      let g2 := { g1 with rng := c2.2 }
      if ¬ isBlocked g2 (ex + c2.1.1) (ey + c2.1.2) then
        setEnt g2 (some i) { getEnt g2 (some i) with x := ex + c2.1.1, y := ey + c2.1.2 }
      else g2
    else g1

/-- The whole loop body of `Game.enemy_turns` for one living enemy with
the player alive: melee / role action, default movement when no action was
taken, troll regeneration, and the per-enemy effect decay. -/
def enemyActBody (g : Game) (i : ℕ) : Game :=
  let e := getEnt g (some i)
  let ex := e.x
  let ey := e.y
  let px := g.player.x
  let py := g.player.y
  let nameL := strToLower e.name
  let ag := enemyRoleAction g i
  let g7 := if ag.1 then ag.2 else enemyDefaultMove ag.2 i ex ey px py
  let g10 := trollEndOfTurn g7 i nameL
  setEnt g10 (some i) (decayEffects (getEnt g10 (some i)))

/-- `Game.enemy_turns`: every enemy in roster order; dead enemies are
skipped, and once the player is dead the remaining enemies do nothing
(the `break`). -/
def enemyTurns (g : Game) : Game :=
  (List.range g.enemies.length).foldl (fun g i =>
    if ¬ (g.enemies.getD i g.player).isAlive then g
    else if ¬ g.player.isAlive then g
    else enemyActBody g i) g

/-- The manual-play glue of `Game.run` around one player key: resolve the
action, and when a turn was consumed run the enemy phase and advance the
turn counter. -/
def runPlayerTurn (g : Game) (key : String) : Game :=
  let hp := handlePlayerAction g key
  if hp.1 ∧ hp.2.state = "playing" then
    let g2 := enemyTurns hp.2
    { g2 with turn := g2.turn + 1 }
  else hp.2

/-!
### The autoplay planner (`Game.bot_choose_action`) and its BFS
-/

/-- The per-tile admission test of `Game._neighbors4`: in bounds, walkable,
and a closed door only when unlocked or a key is held. -/
def neighFilterOk (g : Game) (q : Pos) : Bool :=
  g.map.inBounds q.1 q.2 && g.map.isWalkable q.1 q.2 &&
    (match g.map.doorAt q.1 q.2 with
     | some d => d.opened || !(d.locked && decide (g.invKey ≤ 0))
     | none => true)

/-- `Game._neighbors4`. -/
def neighbors4 (g : Game) (x y : ℤ) : List Pos :=
  ([(x + 1, y), (x - 1, y), (x, y + 1), (x, y - 1)] : List Pos).filter (neighFilterOk g)

/-- Lookup in the BFS `came` predecessor map. -/
def lookupCame (came : List (Pos × Option Pos)) (p : Pos) : Option (Option Pos) :=
  (came.find? (fun kv => kv.1 == p)).map (fun kv => kv.2)

/-- Path reconstruction of `Game._bfs_path` (built goal→start, reversed by
the caller). -/
def reconChain (came : List (Pos × Option Pos)) : ℕ → Pos → List Pos
  | 0, cur => [cur]
  | fuel + 1, cur =>
    match lookupCame came cur with
    | some (some par) => cur :: reconChain came fuel par
    | _ => [cur]

/-- The BFS loop of `Game._bfs_path`: FIFO queue, `came` insertion-ordered
predecessor map, occupied tiles skipped unless they are the goal.  The
fuel `w*h + 2` bounds the loop's iteration count (each queued position is
a fresh `came` key inside the grid). -/
def bfsLoop (g : Game) (goals : List Pos) :
    ℕ → List Pos → List (Pos × Option Pos) → Option (List Pos)
  | 0, _, _ => none
  | _ + 1, [], _ => none
  | fuel + 1, cur :: qs, came =>
    if cur ∈ goals then some ((reconChain came came.length cur).reverse)
    else
      let upd := (neighbors4 g cur.1 cur.2).foldl
        (fun (acc : List Pos × List (Pos × Option Pos)) nxt =>
          if (lookupCame acc.2 nxt).isSome then acc
          else if ¬ (nxt ∈ goals) ∧ isOccupied g nxt.1 nxt.2 then acc
          else (acc.1 ++ [nxt], acc.2 ++ [(nxt, some cur)])) (qs, came)
      bfsLoop g goals fuel upd.1 upd.2

/-- `Game._bfs_path`. -/
def bfsPath (g : Game) (start : Pos) (goals : List Pos) : Option (List Pos) :=
  if goals = [] then none
  else bfsLoop g goals (g.map.w * g.map.h + 2) [start] [(start, none)]

/-- `Game._frontier_targets`. -/
def frontierTargets (g : Game) : List Pos :=
  ((List.range g.map.h).map (fun y =>
    (List.range g.map.w).filterMap (fun x =>
      if g.map.isWalkable (x : ℤ) (y : ℤ) ∧
          (gridGet g.map.explored (x : ℤ) (y : ℤ) || gridGet g.visibleG (x : ℤ) (y : ℤ)) ∧
          (neighbors4 g (x : ℤ) (y : ℤ)).any (fun q => !(gridGet g.map.explored q.1 q.2)) then
        some ((x : ℤ), (y : ℤ))
      else none))).flatten

/-- `Game._visible_enemies`. -/
def visibleEnemies (g : Game) : List Entity :=
  g.enemies.filter (fun e =>
    e.isAlive && g.map.inBounds e.x e.y && gridGet g.visibleG e.x e.y)

/-- `Game._visible_items` restricted to a kind. -/
def visibleItemsKind (g : Game) (kind : String) : List Item :=
  g.items.filter (fun it =>
    g.map.inBounds it.x it.y && gridGet g.visibleG it.x it.y && it.kind == kind)

def manhattan (a b : Pos) : ℤ := |a.1 - b.1| + |a.2 - b.2|

/-- `Game._nearest` (stable distance sort, take the head). -/
def nearestPt (src : Pos) (points : List Pos) : Option Pos :=
  (insSortBy (fun p q => decide (manhattan p src ≤ manhattan q src)) points).head?

/-- `Game._estimate_risk_should_flee`.  `int(max_hp*0.4)` and
`int(max_hp*0.5)` coincide with the exact floors `(2*max_hp)//5` and
`max_hp//2` at the program's magnitudes. -/
def shouldFlee (g : Game) : Bool :=
  if g.player.hp ≤ max 1 (Int.fdiv (2 * g.player.maxHp) 5) then true
  else if (getEffect g.player "Hex").isSome &&
      decide (g.player.hp ≤ max 1 (Int.fdiv g.player.maxHp 2)) then true
  else
    let near := (visibleEnemies g).filter (fun e =>
      max |e.x - g.player.x| |e.y - g.player.y| ≤ 1)
    let totalPower := (near.map (fun e => max 1 e.power)).foldl (· + ·) 0
    decide (2 ≤ near.length) && decide (Int.fdiv g.player.hp 2 ≤ totalPower)

/-- `Game._has_dangerous_adjacent`. -/
def hasDangerousAdjacent (g : Game) : Bool :=
  (visibleEnemies g).any (fun e =>
    decide (|e.x - g.player.x| + |e.y - g.player.y| = 1) &&
      (decide (4 ≤ e.power) || decide (strToLower e.name = "troll") ||
        decide (strToLower e.name = "shaman")))

/-- The planner's result quadruple `(kind, step, path preview, reason)`. -/
abbrev BotResult := String × Option (ℤ × ℤ) × Option (List Pos) × String

/-- The local `_archers_in_line_aiming` helper of `bot_choose_action`. -/
def archersInLineAiming (g : Game) : List Entity :=
  (visibleEnemies g).filter (fun e =>
    decide (strToLower e.name = "archer") && (getEffect e "Aim").isSome &&
      (decide (e.x = g.player.x) || decide (e.y = g.player.y)) &&
      hasLos g.map e.x e.y g.player.x g.player.y 12 &&
      decide (2 ≤ max |e.x - g.player.x| |e.y - g.player.y|))

/-- The local `_would_break_los` helper of `bot_choose_action`. -/
def wouldBreakLos (g : Game) (nx ny : ℤ) (archers : List Entity) : Bool :=
  archers.all (fun a =>
    !((decide (a.x = nx) || decide (a.y = ny)) && hasLos g.map a.x a.y nx ny 12 &&
      decide (2 ≤ max |a.x - nx| |a.y - ny|)))

/-- The minimum Manhattan distance from a candidate tile to any visible
enemy (the flee score). -/
def minDistToVis (vis : List Entity) (c : Pos) : ℤ :=
  ((vis.map (fun e => |c.1 - e.x| + |c.2 - e.y|)).min?).getD 0

/-- The flee branch's best-step fold: keep the first candidate with a
strictly greater score, candidates being the four admitted neighbours plus
the current tile, occupied ones (other than the current tile) skipped. -/
def fleeBest (g : Game) (vis : List Entity) : Option Pos × ℤ :=
  ((neighbors4 g g.player.x g.player.y) ++ [(g.player.x, g.player.y)]).foldl
    (fun acc c =>
      if c ≠ (g.player.x, g.player.y) ∧ isOccupied g c.1 c.2 then acc
      else if acc.2 < minDistToVis vis c then (some c, minDistToVis vis c) else acc)
    (none, -1)

/-- Rule 1 (flee at risk) of `bot_choose_action`; `none` means fall
through to the next rule. -/
def botRuleFlee (g : Game) : Option (Game × BotResult) :=
  if shouldFlee g then
    let vis := visibleEnemies g
    if vis ≠ [] then
      match (fleeBest g vis).1 with
      | some best =>
        if best ≠ (g.player.x, g.player.y) then
          some (g, ("move", some (best.1 - g.player.x, best.2 - g.player.y), none,
            "flee (low HP)"))
        else some (g, ("wait", none, none, "hold (corner)"))
      | none => some (g, ("wait", none, none, "hold (corner)"))
    else none
  else none

/-- Rule 1.2 (break an aiming archer's line or close to melee); increments
the `run_shots_dodged` metric when it moves. -/
def botRuleAvoidAim (g : Game) : Option (Game × BotResult) :=
  let px := g.player.x
  let py := g.player.y
  let aiming := archersInLineAiming g
  if aiming ≠ [] then
    let cand := ((neighbors4 g px py) ++ [(px, py)]).filter (fun c =>
      !(decide (c ≠ (px, py)) && isOccupied g c.1 c.2) &&
        (wouldBreakLos g c.1 c.2 aiming ||
          aiming.any (fun a => decide (|c.1 - a.x| + |c.2 - a.y| = 1))))
    match cand.head? with
    | some best =>
      if best ≠ (px, py) then
        some ({ g with runShotsDodged := g.runShotsDodged + 1 },
          ("move", some (best.1 - px, best.2 - py), none, "auto: avoid LOS"))
      else none
    | none => none
  else none

/-- The `in_los_with_any` test of rule 1.3. -/
def inLosWithAnyArcher (g : Game) (archers : List Entity) (x y : ℤ) : Bool :=
  archers.any (fun a =>
    (decide (a.x = x) || decide (a.y = y)) && hasLos g.map a.x a.y x y 12 &&
      decide (2 ≤ max |a.x - x| |a.y - y|))

/-- Rule 1.3 (avoid standing in any visible archer's straight line). -/
def botRuleAvoidLosGeneral (g : Game) : Option (Game × BotResult) :=
  let px := g.player.x
  let py := g.player.y
  let visArchers := (visibleEnemies g).filter (fun e => decide (strToLower e.name = "archer"))
  if visArchers ≠ [] then
    if inLosWithAnyArcher g visArchers px py then
      let cand := ((neighbors4 g px py) ++ [(px, py)]).filter (fun c =>
        !(decide (c ≠ (px, py)) && isOccupied g c.1 c.2) &&
          !(inLosWithAnyArcher g visArchers c.1 c.2))
      match cand.head? with
      | some best =>
        if best ≠ (px, py) then
          some (g, ("move", some (best.1 - px, best.2 - py), none, "auto: avoid LOS"))
        else none
      | none => none
    else none
  else none

/-- Rule 1.5 (head for a near visible exit while healthy). -/
def botRuleExitNear (g : Game) : Option (Game × BotResult) :=
  match g.exitPos with
  | some ep =>
    if g.map.inBounds ep.1 ep.2 && gridGet g.visibleG ep.1 ep.2 then
      if max 1 (Int.fdiv (3 * g.player.maxHp) 10) ≤ g.player.hp ∧
          |ep.1 - g.player.x| + |ep.2 - g.player.y| ≤ 6 ∧ ¬ hasDangerousAdjacent g then
        match bfsPath g (g.player.x, g.player.y) [ep] with
        | some (_ :: p1 :: rest) =>
          some (g, ("move", some (p1.1 - g.player.x, p1.2 - g.player.y),
            some ((p1 :: rest).take 6),
            "path → Exit (" ++ toString (rest.length + 1) ++ " steps)"))
        | _ => none
      else none
    else none
  | none => none

/-- The fixed role priority order of the attack/chase rules. -/
def rolePri (name : String) : ℤ :=
  if strToLower name = "shaman" then 0
  else if strToLower name = "priest" then 1
  else if strToLower name = "archer" then 2
  else if strToLower name = "troll" then 3
  else if strToLower name = "goblin" then 4
  else 9

/-- Rule 2 (attack an adjacent enemy, by role priority then lowest HP). -/
def botRuleAttack (g : Game) : Option (Game × BotResult) :=
  let px := g.player.x
  let py := g.player.y
  let adj := (visibleEnemies g).filter (fun e => decide (|e.x - px| + |e.y - py| = 1))
  if adj ≠ [] then
    match (insSortBy (fun e1 e2 => decide (rolePri e1.name < rolePri e2.name ∨
        (rolePri e1.name = rolePri e2.name ∧ e1.hp ≤ e2.hp))) adj).head? with
    | some t =>
      let dx : ℤ := if t.x = px then 0 else if px < t.x then 1 else -1
      let dy : ℤ := if t.y = py then 0 else if py < t.y then 1 else -1
      some (g, ("move", some (dx, dy), none, "attack " ++ t.name))
    | none => none
  else none

/-- Rule 2.5 (walk to visible potions). -/
def botRuleLoot (g : Game) : Option (Game × BotResult) :=
  let goals := (visibleItemsKind g "potion").map (fun it => (it.x, it.y))
  if goals ≠ [] then
    match bfsPath g (g.player.x, g.player.y) goals with
    | some (_ :: p1 :: rest) =>
      some (g, ("move", some (p1.1 - g.player.x, p1.2 - g.player.y),
        some ((p1 :: rest).take 6),
        "path → loot (" ++ toString (rest.length + 1) ++ " steps)"))
    | _ => none
  else none

/-- Rule 3 (chase the highest-priority visible enemy, falling back to the
nearest goal set). -/
def botRuleChase (g : Game) : Option (Game × BotResult) :=
  let px := g.player.x
  let py := g.player.y
  let vis := visibleEnemies g
  if vis ≠ [] then
    let hiFirst :=
      match (insSortBy (fun e1 e2 => decide (rolePri e1.name < rolePri e2.name ∨
          (rolePri e1.name = rolePri e2.name ∧
            |e1.x - px| + |e1.y - py| ≤ |e2.x - px| + |e2.y - py|))) vis).head? with
      | some t =>
        match bfsPath g (px, py) [(t.x, t.y)] with
        | some (_ :: p1 :: rest) =>
          some (g, ("move", some (p1.1 - px, p1.2 - py), some ((p1 :: rest).take 6),
            "path → " ++ t.name ++ " (" ++ toString (rest.length + 1) ++ " steps)"))
        | _ => none
      | none => none
    match hiFirst with
    | some r => some r
    | none =>
      let goals := vis.map (fun e => (e.x, e.y))
      match bfsPath g (px, py) goals with
      | some (_ :: p1 :: rest) =>
        let whoName :=
          match nearestPt (px, py) goals with
          | some tp =>
            match vis.find? (fun e => (e.x, e.y) == tp) with
            | some who => who.name
            | none => "enemy"
          | none => "enemy"
        some (g, ("move", some (p1.1 - px, p1.2 - py), some ((p1 :: rest).take 6),
          "path → " ++ whoName ++ " (" ++ toString (rest.length + 1) ++ " steps)"))
      | _ => none
  else none

/-- Rule 3.5 (head for a visible but distant exit). -/
def botRuleExitFar (g : Game) : Option (Game × BotResult) :=
  match g.exitPos with
  | some ep =>
    if g.map.inBounds ep.1 ep.2 && gridGet g.visibleG ep.1 ep.2 then
      match bfsPath g (g.player.x, g.player.y) [ep] with
      | some (_ :: p1 :: rest) =>
        some (g, ("move", some (p1.1 - g.player.x, p1.2 - g.player.y),
          some ((p1 :: rest).take 6),
          "path → Exit (" ++ toString (rest.length + 1) ++ " steps)"))
      | _ => none
    else none
  | none => none

/-- Rule 4 (explore to the nearest frontier tile). -/
def botRuleExplore (g : Game) : Option (Game × BotResult) :=
  let frontier := frontierTargets g
  if frontier ≠ [] then
    match bfsPath g (g.player.x, g.player.y) frontier with
    | some (_ :: p1 :: rest) =>
      some (g, ("move", some (p1.1 - g.player.x, p1.2 - g.player.y),
        some ((p1 :: rest).take 6),
        "explore (" ++ toString (rest.length + 1) ++ " steps)"))
    | _ => none
  else none

/-- `Game.bot_choose_action`: the priority-ordered decision policy.  The
returned game differs from the input only when rule 1.2 bumps the
`run_shots_dodged` metric. -/
def botChooseAction (g : Game) : Game × BotResult :=
  if ¬ (g.state = "playing" ∧ g.player.isAlive = true) then (g, ("wait", none, none, "idle"))
  else
    match botRuleFlee g with
    | some r => r
    | none =>
      match botRuleAvoidAim g with
      | some r => r
      | none =>
        match botRuleAvoidLosGeneral g with
        | some r => r
        | none =>
          match botRuleExitNear g with
          | some r => r
          | none =>
            match botRuleAttack g with
            | some r => r
            | none =>
              match botRuleLoot g with
              | some r => r
              | none =>
                match botRuleChase g with
                | some r => r
                | none =>
                  match botRuleExitFar g with
                  | some r => r
                  | none =>
                    match botRuleExplore g with
                    | some r => r
                    | none => (g, ("wait", none, none, "wait"))

/-!
### Save-game loading (`Game.load_game`)

The JSON object of a save file is embedded as a structure of `Option`
fields (a missing key is `none`); `dict.get(k, default)` becomes
`Option.getD`, and a bare `dict[k]` on a missing key raises `KeyError`,
modelled as `Except.error` carrying the message together with the game
state at the moment of the raise (the in-place mutations made before that
point having already landed).
-/

structure EntSave where
  x : Option ℤ
  y : Option ℤ
  ch : Option String
  name : Option String
  hp : Option ℤ
  power : Option ℤ
  maxHp : Option ℤ
  effects : Option (List (String × EffectData))

structure MapSave where
  w : Option ℕ
  h : Option ℕ
  tiles : Option (List (List Bool))
  explored : Option (List (List Bool))
  genType : Option String
  rooms : Option (List (ℤ × ℤ × ℤ × ℤ))
  doors : Option (List Door)

structure ItemSave where
  x : Option ℤ
  y : Option ℤ
  kind : Option String

structure StatsSave where
  kills : Option ℤ
  dmgDealt : Option ℤ
  dmgTaken : Option ℤ
  itemsUsed : Option ℤ
  killsByRole : Option (List (String × ℤ))
  timesHexed : Option ℤ
  shotsDodged : Option ℤ

structure SaveData where
  state : Option String
  turn : Option ℤ
  seed : Option ℤ
  tier : Option ℤ
  map : Option MapSave
  player : Option EntSave
  enemies : Option (List EntSave)
  log : Option (List String)
  exitF : Option (Option Pos)
  items : Option (List ItemSave)
  invPotion : Option ℤ
  invKey : Option ℤ
  stats : Option StatsSave

/-- `Entity.deserialize`: the constructor arguments `x, y, ch, name, hp,
power` are bare `data[...]` subscripts and raise on a missing key;
`max_hp` defaults to `hp`, the effects dict to empty. -/
def entDeser (d : EntSave) : Except String Entity :=
  match d.x, d.y, d.ch, d.name, d.hp, d.power with
  | some x, some y, some ch, some name, some hp, some power =>
    .ok { x := x, y := y, ch := ch, name := name, hp := hp,
          maxHp := d.maxHp.getD hp, power := power, effects := d.effects.getD [] }
  | _, _, _, _, _, _ => .error "KeyError: entity field"

/-- The last `n` entries of a list (`data[-n:]`, `Logger.deserialize`). -/
def lastN {α : Type} (n : ℕ) (l : List α) : List α := l.drop (l.length - n)

/-- `Map.deserialize`: `data["w"]`, `data["h"]` raise when missing, and so
does `data["tiles"]` — but only when the dimension loops run at all. -/
def mapDeser (d : MapSave) : Except String DMap :=
  match d.w, d.h with
  | some w, some h =>
    if 0 < w ∧ 0 < h ∧ d.tiles.isNone then .error "KeyError: tiles"
    else
      .ok { w := w, h := h,
            tiles :=
              match d.tiles with
              | some ts => buildTiles w h (fun x y => gridGet ts (x : ℤ) (y : ℤ))
              | none => emptyGrid w h,
            explored := d.explored.getD (emptyGrid w h),
            genType := d.genType.getD "caves",
            rooms := d.rooms.getD [],
            roomCenters := (d.rooms.getD []).map rectCenter,
            doors := d.doors.getD [] }
  | _, _ => .error "KeyError: map dims"

/-- `random.Random(seed)` after a load: an unspecified but fixed stream
derived from the seed (no verified claim depends on post-load draws). -/
def seedRNG (seed : ℤ) : RNG := ⟨fun _ => seed.toNat, 0⟩

/-- `Game.load_game`.  `file = none` is an unreadable/corrupt/missing save
(the `try/except` around `open` + `json.load`): log and report failure.
Otherwise the fields are applied in source order; a raise carries the
partially updated state. -/
def loadGame (g0 : Game) (file : Option SaveData) : Except (String × Game) (Bool × Game) :=
  match file with
  | none => .ok (false, addLog g0 "Failed to load")
  | some data =>
    let g1 := { g0 with
      state := data.state.getD "paused",
      turn := data.turn.getD 1,
      seed := data.seed.getD 1337,
      rng := seedRNG (data.seed.getD 1337),
      menuTier := data.tier.getD 1 }
    match (match data.map with
           | some ms => mapDeser ms
           | none => .ok g1.map) with
    | .error msg => .error (msg, g1)
    | .ok m =>
      let g2 := { g1 with map := m }
      match data.player with
      | none => .error ("KeyError: player", g2)
      | some ps =>
        match entDeser ps with
        | .error msg => .error (msg, g2)
        | .ok pl =>
          let g3 := { g2 with player := pl }
          match (data.enemies.getD []).foldl (fun (acc : Except String (List Entity)) ed =>
              match acc with
              | .error e => .error e
              | .ok l =>
                match entDeser ed with
                | .error e => .error e
                | .ok en => .ok (l ++ [en])) (.ok []) with
          | .error msg => .error (msg, g3)
          | .ok ens =>
            let g4 := { g3 with enemies := ens,
                                log := lastN 1000 (data.log.getD []),
                                exitPos := data.exitF.getD none,
                                items := (data.items.getD []).map (fun (isv : ItemSave) =>
                                  Item.mk (isv.x.getD 0) (isv.y.getD 0)
                                    (isv.kind.getD "potion")),
                                invPotion := data.invPotion.getD 0,
                                invKey := data.invKey.getD 0 }
            let st := data.stats
            let g5 := { g4 with
              runKills := (st.bind StatsSave.kills).getD 0,
              runDmgDealt := (st.bind StatsSave.dmgDealt).getD 0,
              runDmgTaken := (st.bind StatsSave.dmgTaken).getD 0,
              runItemsUsed := (st.bind StatsSave.itemsUsed).getD 0,
              runKillsByRole := (st.bind StatsSave.killsByRole).getD [],
              runTimesHexed := (st.bind StatsSave.timesHexed).getD 0,
              runShotsDodged := (st.bind StatsSave.shotsDodged).getD 0 }
            .ok (true, recomputeFov (addLog g5 "Loaded."))

/-- The valid-JSON save with no fields at all (`{}`). -/
def emptySave : SaveData :=
  ⟨none, none, none, none, none, none, none, none, none, none, none, none, none⟩

/-! ### Concrete instances used by witnesses and counterexamples -/

/-- A 6×6 caves-mode map request. -/
def mC1 : DMap := ⟨6, 6, [], [], "caves", [], [], []⟩

/-- A direction stream whose drunkard walk snakes over the whole interior
(16 carves) and then stops at the coverage target. -/
def rngC1 : RNG := ⟨fun i => [0, 2, 1, 1, 1, 3, 0, 3, 1, 3, 0, 0, 0, 2, 1].getD i 0, 0⟩

/-- A fully walkable `w × h` map with no doors. -/
def openMap (w h : ℕ) : DMap :=
  ⟨w, h, buildTiles w h (fun _ _ => true), emptyGrid w h, "caves", [], [], []⟩

/-- An inert RNG stream for states whose evolution draws nothing. -/
def baseRNG : RNG := ⟨fun _ => 0, 0⟩

/-- A game in the `playing` state with empty inventory, no items and no
exit, everything else zeroed. -/
def mkGame (m : DMap) (pl : Entity) (es : List Entity) : Game :=
  ⟨"playing", 1, 1337, m, pl, es, none, [], 0, 0, emptyGrid m.w m.h, [], baseRNG, 1,
   false, [], [], [], 0, 0, 0, 0, [], 0, 0⟩

/-- Player (power 5) against a shielded defender (pool 3, HP 8). -/
def gC2 : Game := mkGame (openMap 3 3)
  ⟨0, 0, "@", "Player", 20, 20, 5, []⟩
  [⟨1, 0, "g", "Goblin", 8, 8, 2, [("Shield", ⟨3, 1, 3, 2⟩)]⟩]

/-- Player (power 5) against a defender with 1 HP (overkill attack). -/
def gC3 : Game := mkGame (openMap 3 3)
  ⟨0, 0, "@", "Player", 20, 20, 5, []⟩
  [⟨1, 0, "g", "Goblin", 1, 8, 3, []⟩]

/-- A mid-run game whose scalar state differs from every load default. -/
def gC8 : Game :=
  { mkGame (openMap 3 3) ⟨0, 0, "@", "Player", 20, 20, 5, []⟩ [] with
    turn := 7, seed := 42, menuTier := 2, invPotion := 3 }

/-- A 3×3 map whose middle column is wall. -/
def wallMap : DMap :=
  ⟨3, 3, buildTiles 3 3 (fun x _ => !(x == 1)), emptyGrid 3 3, "caves", [], [], []⟩

/-- A fully walkable 3×3 map with a closed locked door at `(1, 0)`. -/
def doorMap : DMap :=
  ⟨3, 3, buildTiles 3 3 (fun _ _ => true), emptyGrid 3 3, "rooms", [], [],
   [⟨1, 0, false, true⟩]⟩

/-- The player facing the wall column, with an adjacent goblin. -/
def gC4 : Game := mkGame wallMap
  ⟨0, 0, "@", "Player", 20, 20, 5, []⟩
  [⟨0, 1, "g", "Goblin", 8, 8, 2, []⟩]

/-- The player facing the locked door while holding no key. -/
def gC4D : Game := mkGame doorMap
  ⟨0, 0, "@", "Player", 20, 20, 5, []⟩
  []

/-- A player at 8/20 HP with a visible adjacent goblin (everything
visible). -/
def gC6 : Game :=
  { mkGame (openMap 5 3) ⟨1, 1, "@", "Player", 8, 20, 5, []⟩
      [⟨2, 1, "g", "Goblin", 8, 8, 2, []⟩] with
    visibleG := buildTiles 5 3 (fun _ _ => true) }

/-- A priest with two wounded allies: one barely scratched but adjacent
(deficit 1, distance 1), one near death but further away (deficit 13,
distance 5). -/
def gC9 : Game := mkGame (openMap 9 5)
  ⟨7, 3, "@", "Player", 20, 20, 5, []⟩
  [⟨1, 1, "p", "Priest", 7, 7, 2, []⟩,
   ⟨2, 1, "g", "Goblin", 7, 8, 2, []⟩,
   ⟨6, 1, "g", "Goblin", 1, 14, 2, []⟩]

/-- An archer with no effects yet, in line with the player three tiles
away on an open map (the aim-then-shoot scenario of the spec). -/
def gC5 : Game := mkGame (openMap 7 3)
  ⟨4, 1, "@", "Player", 20, 20, 5, []⟩
  [⟨1, 1, "a", "Archer", 6, 6, 2, []⟩]

/-- An archer holding an active `Aim` in line with a player shielded by a
pool of `t`, three tiles away on an open map. -/
def gC10 (t : ℤ) : Game := mkGame (openMap 7 3)
  ⟨4, 1, "@", "Player", 20, 20, 5, [("Shield", ⟨3, 1, t, 2⟩)]⟩
  [⟨1, 1, "a", "Archer", 6, 6, 2, [("Aim", ⟨2, 1, 0, 2⟩)]⟩]

/-! ### Flood-fill characterisation and connectivity of the generators -/

lemma subset_expandReach (m : DMap) (s : Finset Pos) : s ⊆ expandReach m s :=
  Finset.subset_union_left

lemma iterate_expand_succ (m : DMap) (init : Finset Pos) (n : ℕ) :
    (expandReach m)^[n + 1] init = expandReach m ((expandReach m)^[n] init) :=
  Function.iterate_succ_apply' _ _ _

lemma iterate_expand_mono (m : DMap) (init : Finset Pos) {a b : ℕ} (h : a ≤ b) :
    (expandReach m)^[a] init ⊆ (expandReach m)^[b] init := by
  induction h with
  | refl => exact subset_rfl
  | step hb ih =>
    refine ih.trans ?_
    rw [iterate_expand_succ]
    exact subset_expandReach m _

lemma mem_walkCells {m : DMap} {p : Pos} (h : m.isWalkable p.1 p.2 = true) :
    p ∈ walkCells m := by
  obtain ⟨x, y⟩ := p
  have hb : m.inBounds x y = true := by
    have h2 := h
    unfold DMap.isWalkable at h2
    simp only [Bool.and_eq_true] at h2
    exact h2.1
  unfold DMap.inBounds at hb
  simp only [Bool.and_eq_true, decide_eq_true_eq] at hb
  obtain ⟨⟨⟨hx0, hxw⟩, hy0⟩, hyh⟩ := hb
  unfold walkCells
  refine Finset.mem_filter.mpr ⟨?_, h⟩
  refine Finset.mem_image.mpr ⟨(x.toNat, y.toNat), ?_, ?_⟩
  · refine Finset.mem_product.mpr ⟨Finset.mem_range.mpr ?_, Finset.mem_range.mpr ?_⟩ <;> omega
  · simp only [Prod.mk.injEq]
    exact ⟨Int.toNat_of_nonneg hx0, Int.toNat_of_nonneg hy0⟩

lemma walkCells_card (m : DMap) : (walkCells m).card ≤ m.w * m.h := by
  unfold walkCells
  calc ((((Finset.range m.w) ×ˢ (Finset.range m.h)).image
          (fun q => ((q.1 : ℤ), (q.2 : ℤ)))).filter
        (fun p => m.isWalkable p.1 p.2 = true)).card
      ≤ (((Finset.range m.w) ×ˢ (Finset.range m.h)).image
          (fun q => ((q.1 : ℤ), (q.2 : ℤ)))).card := Finset.card_filter_le _ _
    _ ≤ ((Finset.range m.w) ×ˢ (Finset.range m.h)).card := Finset.card_image_le
    _ = m.w * m.h := by simp

lemma reachInit_subset (m : DMap) (s : Pos) : reachInit m s ⊆ walkCells m := by
  unfold reachInit
  split_ifs with h
  · intro p hp
    rw [Finset.mem_singleton] at hp
    subst hp
    exact mem_walkCells h
  · simp

lemma neighList_walkable {m : DMap} {p q : Pos} (h : q ∈ neighList m p) :
    m.isWalkable q.1 q.2 = true := by
  unfold neighList at h
  exact (List.mem_filter.mp h).2

lemma expandReach_subset {m : DMap} {s : Finset Pos} (hs : s ⊆ walkCells m) :
    expandReach m s ⊆ walkCells m := by
  unfold expandReach
  intro p hp
  rcases Finset.mem_union.mp hp with h | h
  · exact hs h
  · obtain ⟨q, _, hm⟩ := Finset.mem_biUnion.mp h
    exact mem_walkCells (neighList_walkable (List.mem_toFinset.mp hm))

lemma iterate_subset_walkCells (m : DMap) (s : Pos) (n : ℕ) :
    (expandReach m)^[n] (reachInit m s) ⊆ walkCells m := by
  induction n with
  | zero => exact reachInit_subset m s
  | succ n ih =>
    rw [iterate_expand_succ]
    exact expandReach_subset ih

lemma iterate_growth (m : DMap) (s : Pos) :
    ∀ n : ℕ,
      (∀ k < n, (expandReach m)^[k] (reachInit m s) ≠ (expandReach m)^[k + 1] (reachInit m s)) →
      n ≤ ((expandReach m)^[n] (reachInit m s)).card := by
  intro n
  induction n with
  | zero => intro _; exact Nat.zero_le _
  | succ n ih =>
    intro h
    have h1 := ih (fun k hk => h k (hk.trans (Nat.lt_succ_self n)))
    have hne := h n (Nat.lt_succ_self n)
    have hsub : (expandReach m)^[n] (reachInit m s) ⊂
        (expandReach m)^[n + 1] (reachInit m s) :=
      (iterate_expand_mono m _ (Nat.le_succ n)).ssubset_of_ne hne
    have := Finset.card_lt_card hsub
    omega

lemma exists_fix (m : DMap) (s : Pos) :
    ∃ k ≤ m.w * m.h,
      (expandReach m)^[k] (reachInit m s) = (expandReach m)^[k + 1] (reachInit m s) := by
  by_contra hc
  push_neg at hc
  have h := iterate_growth m s (m.w * m.h + 1)
    (fun k hk => hc k (Nat.lt_succ_iff.mp hk))
  have h2 := Finset.card_le_card (iterate_subset_walkCells m s (m.w * m.h + 1))
  have h3 := walkCells_card m
  omega

lemma stabilize (m : DMap) (s : Pos) {k : ℕ}
    (h : (expandReach m)^[k] (reachInit m s) = (expandReach m)^[k + 1] (reachInit m s)) :
    ∀ j, (expandReach m)^[k + j] (reachInit m s) = (expandReach m)^[k] (reachInit m s) := by
  intro j
  induction j with
  | zero => rfl
  | succ j ih =>
    have hkj : k + (j + 1) = (k + j) + 1 := by ring
    rw [hkj, iterate_expand_succ, ih, ← iterate_expand_succ, ← h]

lemma reachSet_isFixpoint (m : DMap) (s : Pos) :
    expandReach m (reachSet m s) = reachSet m s := by
  obtain ⟨k, hk, hfix⟩ := exists_fix m s
  unfold reachSet
  have h1 : (expandReach m)^[m.w * m.h] (reachInit m s) =
      (expandReach m)^[k] (reachInit m s) := by
    have := stabilize m s hfix (m.w * m.h - k)
    rwa [Nat.add_sub_cancel' hk] at this
  rw [h1, ← iterate_expand_succ]
  exact hfix.symm

lemma iterate_subset_reachSet (m : DMap) (s : Pos) (n : ℕ) :
    (expandReach m)^[n] (reachInit m s) ⊆ reachSet m s := by
  rcases le_or_lt n (m.w * m.h) with h | h
  · exact iterate_expand_mono m _ h
  · obtain ⟨k, hk, hfix⟩ := exists_fix m s
    have h1 := stabilize m s hfix (n - k)
    have h2 := stabilize m s hfix (m.w * m.h - k)
    rw [Nat.add_sub_cancel' (hk.trans h.le)] at h1
    rw [Nat.add_sub_cancel' hk] at h2
    unfold reachSet
    rw [h1, h2]

lemma iterate_sound (m : DMap) (s : Pos) :
    ∀ n p, p ∈ (expandReach m)^[n] (reachInit m s) → reaches m s p := by
  intro n
  induction n with
  | zero =>
    intro p hp
    simp only [Function.iterate_zero_apply] at hp
    unfold reachInit at hp
    split_ifs at hp with h
    · rw [Finset.mem_singleton] at hp
      subst hp
      exact ⟨h, Relation.ReflTransGen.refl⟩
    · simp at hp
  | succ n ih =>
    intro p hp
    rw [iterate_expand_succ] at hp
    unfold expandReach at hp
    rcases Finset.mem_union.mp hp with h | h
    · exact ih p h
    · obtain ⟨q, hq, hm⟩ := Finset.mem_biUnion.mp h
      obtain ⟨hw, hrt⟩ := ih q hq
      exact ⟨hw, hrt.tail (List.mem_toFinset.mp hm)⟩

lemma start_mem_reachSet {m : DMap} {s : Pos} (h : m.isWalkable s.1 s.2 = true) :
    s ∈ reachSet m s := by
  have hs : s ∈ reachInit m s := by
    unfold reachInit
    rw [if_pos h]
    exact Finset.mem_singleton_self s
  exact iterate_subset_reachSet m s 0 hs

lemma reaches_mem_reachSet {m : DMap} {s p : Pos} (h : reaches m s p) :
    p ∈ reachSet m s := by
  obtain ⟨hw, hrt⟩ := h
  induction hrt with
  | refl => exact start_mem_reachSet hw
  | tail _ hbc ih =>
    rw [← reachSet_isFixpoint m s]
    unfold expandReach
    exact Finset.mem_union_right _
      (Finset.mem_biUnion.mpr ⟨_, ih, List.mem_toFinset.mpr hbc⟩)

lemma gridGet_build (w h : ℕ) (f : ℕ → ℕ → Bool) {x y : ℤ}
    (hx0 : 0 ≤ x) (hxw : x < (w : ℤ)) (hy0 : 0 ≤ y) (hyh : y < (h : ℤ)) :
    gridGet (buildTiles w h f) x y = f x.toNat y.toNat := by
  unfold gridGet buildTiles
  rw [if_pos ⟨hx0, hy0⟩]
  have hBy : y.toNat < h := by omega
  have hBx : x.toNat < w := by omega
  have houter : ((List.range h).map
      (fun y => (List.range w).map (fun x => f x y))).getD y.toNat [] =
      (List.range w).map (fun x => f x y.toNat) := by
    rw [List.getD_eq_getElem?_getD, List.getElem?_map, List.getElem?_range hBy]
    rfl
  rw [houter, List.getD_eq_getElem?_getD, List.getElem?_map, List.getElem?_range hBx]
  rfl

lemma inBounds_enforce (m : DMap) (s : Pos) (x y : ℤ) :
    (enforceConnected m s).inBounds x y = m.inBounds x y := rfl

lemma enforce_isWalkable (m : DMap) (s : Pos) (x y : ℤ) :
    (enforceConnected m s).isWalkable x y =
      (m.isWalkable x y && decide ((x, y) ∈ reachSet m s)) := by
  by_cases hb : 0 ≤ x ∧ x < (m.w : ℤ) ∧ 0 ≤ y ∧ y < (m.h : ℤ)
  · obtain ⟨hx0, hxw, hy0, hyh⟩ := hb
    have hbnd : m.inBounds x y = true := by
      unfold DMap.inBounds
      simp only [Bool.and_eq_true, decide_eq_true_eq]
      exact ⟨⟨⟨hx0, hxw⟩, hy0⟩, hyh⟩
    have hL : (enforceConnected m s).isWalkable x y =
        gridGet (enforceConnected m s).tiles x y := by
      unfold DMap.isWalkable
      rw [inBounds_enforce, hbnd, Bool.true_and]
    rw [hL]
    have ht : (enforceConnected m s).tiles = buildTiles m.w m.h (fun x y =>
        m.isWalkable (x : ℤ) (y : ℤ) && decide (((x : ℤ), (y : ℤ)) ∈ reachSet m s)) := rfl
    rw [ht, gridGet_build m.w m.h _ hx0 hxw hy0 hyh,
      Int.toNat_of_nonneg hx0, Int.toNat_of_nonneg hy0]
  · have hbnd : m.inBounds x y = false := by
      unfold DMap.inBounds
      simp only [Bool.and_eq_true, decide_eq_true_eq, Bool.not_eq_true] at *
      by_contra hc
      rw [Bool.not_eq_false] at hc
      simp only [Bool.and_eq_true, decide_eq_true_eq] at hc
      exact hb ⟨hc.1.1.1, hc.1.1.2, hc.1.2, hc.2⟩
    have hL : (enforceConnected m s).isWalkable x y = false := by
      unfold DMap.isWalkable
      rw [inBounds_enforce, hbnd, Bool.false_and]
    have hR : m.isWalkable x y = false := by
      unfold DMap.isWalkable
      rw [hbnd, Bool.false_and]
    rw [hL, hR, Bool.false_and]

lemma iterate_reaches_enforce (m : DMap) (s : Pos)
    (hw : m.isWalkable s.1 s.2 = true) :
    ∀ n p, p ∈ (expandReach m)^[n] (reachInit m s) →
      Relation.ReflTransGen (adjStep (enforceConnected m s)) s p := by
  intro n
  induction n with
  | zero =>
    intro p hp
    simp only [Function.iterate_zero_apply] at hp
    unfold reachInit at hp
    rw [if_pos hw, Finset.mem_singleton] at hp
    subst hp
    exact Relation.ReflTransGen.refl
  | succ n ih =>
    intro p hp
    have hp' := hp
    rw [iterate_expand_succ] at hp'
    unfold expandReach at hp'
    rcases Finset.mem_union.mp hp' with h | h
    · exact ih p h
    · obtain ⟨q, hq, hm⟩ := Finset.mem_biUnion.mp h
      have hstep : p ∈ neighList m q := List.mem_toFinset.mp hm
      refine (ih q hq).tail ?_
      show p ∈ neighList (enforceConnected m s) q
      unfold neighList at hstep ⊢
      rw [List.mem_filter] at hstep ⊢
      refine ⟨hstep.1, ?_⟩
      rw [enforce_isWalkable]
      have hpw : m.isWalkable p.1 p.2 = true := hstep.2
      have hpr : p ∈ reachSet m s := iterate_subset_reachSet m s (n + 1) hp
      simp only [hpw, Bool.true_and, decide_eq_true_eq]
      exact hpr

/-- Generic connectivity guarantee of `Map._enforce_connected`: every
walkable tile of the enforced grid is reachable from the start tile. -/
lemma enforce_connected_reaches (m : DMap) (s p : Pos)
    (hw : (enforceConnected m s).isWalkable p.1 p.2 = true) :
    reaches (enforceConnected m s) s p := by
  rw [enforce_isWalkable, Bool.and_eq_true, decide_eq_true_eq] at hw
  obtain ⟨hpw, hpr⟩ := hw
  have hsw : m.isWalkable s.1 s.2 = true := by
    by_contra hns
    have hinit : reachInit m s = ∅ := by
      unfold reachInit
      rw [if_neg hns]
    have hempty : ∀ n, (expandReach m)^[n] (reachInit m s) = (∅ : Finset Pos) := by
      intro n
      induction n with
      | zero => exact hinit
      | succ n ih =>
        rw [iterate_expand_succ, ih]
        unfold expandReach
        simp
    have hre : reachSet m s = (∅ : Finset Pos) := hempty (m.w * m.h)
    rw [hre] at hpr
    exact absurd hpr (Finset.not_mem_empty _)
  refine ⟨?_, iterate_reaches_enforce m s hsw (m.w * m.h) p hpr⟩
  rw [enforce_isWalkable, Bool.and_eq_true, decide_eq_true_eq]
  exact ⟨hsw, start_mem_reachSet hsw⟩

lemma isWalkable_congr {m₁ m₂ : DMap} (hw : m₁.w = m₂.w) (hh : m₁.h = m₂.h)
    (ht : m₁.tiles = m₂.tiles) : ∀ x y, m₁.isWalkable x y = m₂.isWalkable x y := by
  intro x y
  unfold DMap.isWalkable DMap.inBounds
  rw [hw, hh, ht]

lemma reaches_congr {m₁ m₂ : DMap} (hw : m₁.w = m₂.w) (hh : m₁.h = m₂.h)
    (ht : m₁.tiles = m₂.tiles) {s p : Pos} (h : reaches m₁ s p) : reaches m₂ s p := by
  have hws := isWalkable_congr hw hh ht
  have hn : ∀ a, neighList m₁ a = neighList m₂ a := by
    intro a
    unfold neighList
    congr 1
    funext q
    exact hws q.1 q.2
  have hadj : adjStep m₁ = adjStep m₂ := by
    funext a b
    unfold adjStep
    rw [hn a]
  obtain ⟨h1, h2⟩ := h
  refine ⟨?_, hadj ▸ h2⟩
  rw [← hws]
  exact h1

lemma foldl_pres {α β : Type} (P : β → Prop) (f : β → α → β)
    (hf : ∀ b a, P b → P (f b a)) : ∀ (l : List α) (b : β), P b → P (l.foldl f b) := by
  intro l
  induction l with
  | nil => intro b hb; exact hb
  | cons a l ih =>
    intro b hb
    exact ih _ (hf b a hb)

lemma caveWalk_pre (t : ℕ) : ∀ (fuel : ℕ) (m : DMap) (rng : RNG) (x y : ℤ) (c : ℕ),
    (caveWalk t fuel m rng x y c).1.w = m.w ∧ (caveWalk t fuel m rng x y c).1.h = m.h ∧
      (caveWalk t fuel m rng x y c).1.genType = m.genType := by
  intro fuel
  induction fuel with
  | zero => intro m rng x y c; exact ⟨rfl, rfl, rfl⟩
  | succ fuel ih =>
    intro m rng x y c
    simp only [caveWalk, RNG.choiceD, RNG.next]
    split_ifs with h1 h2 h3
    · exact ih _ _ _ _ _
    · exact ih _ _ _ _ _
    · exact ih _ _ _ _ _
    · exact ⟨rfl, rfl, rfl⟩

lemma caveWalk_w (t fuel : ℕ) (m : DMap) (rng : RNG) (x y : ℤ) (c : ℕ) :
    (caveWalk t fuel m rng x y c).1.w = m.w := (caveWalk_pre t fuel m rng x y c).1

lemma caveWalk_h (t fuel : ℕ) (m : DMap) (rng : RNG) (x y : ℤ) (c : ℕ) :
    (caveWalk t fuel m rng x y c).1.h = m.h := (caveWalk_pre t fuel m rng x y c).2.1

lemma caveWalk_genType (t fuel : ℕ) (m : DMap) (rng : RNG) (x y : ℤ) (c : ℕ) :
    (caveWalk t fuel m rng x y c).1.genType = m.genType :=
  (caveWalk_pre t fuel m rng x y c).2.2

lemma carve_w (m : DMap) (x y : ℤ) : (m.carve x y).w = m.w := by
  unfold DMap.carve
  split_ifs <;> rfl

lemma carve_h (m : DMap) (x y : ℤ) : (m.carve x y).h = m.h := by
  unfold DMap.carve
  split_ifs <;> rfl

lemma carve_genType (m : DMap) (x y : ℤ) : (m.carve x y).genType = m.genType := by
  unfold DMap.carve
  split_ifs <;> rfl

lemma placeRooms_genType : ∀ (att n : ℕ) (m : DMap) (rng : RNG),
    (placeRooms att n m rng).1.genType = m.genType := by
  intro att
  induction att with
  | zero => intro n m rng; rfl
  | succ att ih =>
    intro n m rng
    simp only [placeRooms]
    by_cases h1 : m.rooms.length < n
    · rw [if_pos h1]
      split_ifs <;> exact ih _ _ _
    · rw [if_neg h1]

lemma placeDoor_genType (m : DMap) (x y : ℤ) : (placeDoor m x y).genType = m.genType := by
  unfold placeDoor
  split_ifs <;> rfl

lemma corridorTile_genType (st : DMap × RNG × Option ℕ) (p : Pos) :
    (corridorTile st p).1.genType = st.1.genType := by
  simp only [corridorTile, List.foldl_cons, List.foldl_nil]
  split_ifs <;> (try rw [placeDoor_genType]) <;> rfl

lemma carveCorridor_genType (m : DMap) (rng : RNG) (a b : ℤ × ℤ × ℤ × ℤ) :
    (carveCorridor m rng a b).1.genType = m.genType := by
  simp only [carveCorridor]
  refine foldl_pres (fun st => st.1.genType = m.genType) corridorTile
    (fun st p hp => (corridorTile_genType st p).trans hp) _ _ ?_
  rfl

lemma roomsCarvePhase_genType (m0 : DMap) (rng : RNG) (a b : ℤ) :
    (roomsCarvePhase m0 rng a b).1.genType = "rooms" := by
  simp only [roomsCarvePhase]
  refine foldl_pres (fun st : DMap × RNG => st.1.genType = "rooms") _ ?_ _ _ ?_
  · intro st pr hst
    exact (carveCorridor_genType _ _ _ _).trans hst
  · show (if _ then _ else _ : DMap).genType = "rooms"
    split_ifs <;> exact placeRooms_genType _ _ _ _

lemma genStart_rooms (M : DMap) (hg : M.genType = "rooms") :
    genStart M = roomsStart M := by
  unfold genStart
  rw [if_pos hg]

lemma roomsStart_enforce (M : DMap) (s : Pos) :
    roomsStart (enforceConnected M s) = roomsStart M := rfl

lemma roomsStart_lockDoors (M : DMap) (L : List (ℤ × ℤ)) :
    roomsStart (lockDoors M L) = roomsStart M := rfl

lemma roomsFinish_connected (m : DMap) (rng : RNG) (hg : m.genType = "rooms") (p : Pos)
    (hw : (roomsFinish m rng).1.isWalkable p.1 p.2 = true) :
    reaches (roomsFinish m rng).1 (genStart (roomsFinish m rng).1) p := by
  simp only [roomsFinish] at hw ⊢
  split_ifs at hw ⊢ with hemp
  · rw [genStart_rooms, roomsStart_enforce]
    · exact enforce_connected_reaches m _ p hw
    · exact hg
  · have hw' : (enforceConnected m (roomsStart m)).isWalkable p.1 p.2 = true := hw
    have hr := enforce_connected_reaches m (roomsStart m) p hw'
    rw [genStart_rooms, roomsStart_lockDoors, roomsStart_enforce]
    · exact reaches_congr rfl rfl rfl hr
    · exact hg

lemma generateRooms_connected (m0 : DMap) (rng : RNG) (a b : ℤ) (p : Pos)
    (hw : (generateRooms m0 rng a b).1.isWalkable p.1 p.2 = true) :
    reaches (generateRooms m0 rng a b).1 (genStart (generateRooms m0 rng a b).1) p := by
  have hg := roomsCarvePhase_genType m0 rng a b
  simp only [generateRooms] at hw ⊢
  exact roomsFinish_connected _ _ hg p hw

lemma caves_shape_connected (w0 : DMap) (s : Pos) (hG : ¬ w0.genType = "rooms")
    (hsx : s = (((w0.w / 2 : ℕ) : ℤ), ((w0.h / 2 : ℕ) : ℤ))) (p : Pos)
    (hw : (enforceConnected w0 s).isWalkable p.1 p.2 = true) :
    reaches (enforceConnected w0 s) (genStart (enforceConnected w0 s)) p := by
  have hgs : genStart (enforceConnected w0 s) = s := by
    unfold genStart
    rw [if_neg (show ¬ (enforceConnected w0 s).genType = "rooms" from hG)]
    exact hsx.symm
  rw [hgs]
  exact enforce_connected_reaches w0 s p hw

lemma generateCaves_connected (m0 : DMap) (rng : RNG) (p : Pos)
    (hw : (generateCaves m0 rng).1.isWalkable p.1 p.2 = true) :
    reaches (generateCaves m0 rng).1 (genStart (generateCaves m0 rng).1) p := by
  simp only [generateCaves] at hw ⊢
  refine caves_shape_connected _ _ ?_ ?_ p hw
  · rw [caveWalk_genType, carve_genType]
    simp
  · rw [caveWalk_w, caveWalk_h, carve_w, carve_h]

/-- C1: every grid produced by `Map.generate` (caves or rooms mode, any
RNG stream, any dimensions) has all of its walkable tiles reachable from
the generation start tile — the grid centre in caves mode, the first
room's centre in rooms mode — via 4-directional steps through walkable
tiles. -/
theorem generate_connected (m0 : DMap) (rng : RNG) (p : Pos)
    (hw : (m0.generate rng).1.isWalkable p.1 p.2 = true) :
    reaches (m0.generate rng).1 (genStart (m0.generate rng).1) p := by
  unfold DMap.generate at hw ⊢
  split_ifs at hw ⊢ with h
  · exact generateRooms_connected m0 rng 8 14 p hw
  · exact generateCaves_connected m0 rng p hw

set_option maxRecDepth 10000 in
/-- Witness for C1: a concrete 6×6 caves-mode generation in which the tile
`(1, 1)` is walkable, hence reachable from the start tile. -/
theorem generate_connected_witness :
    reaches (mC1.generate rngC1).1 (genStart (mC1.generate rngC1).1) (1, 1) :=
  generate_connected mC1 rngC1 (1, 1) (by decide)

/-! ### Combat: damage formula, shield absorption, HP bounds -/

lemma find?_map_replace (l : List (String × EffectData)) (n : String) (ed : EffectData)
    (h : l.any (fun kv => kv.1 == n) = true) :
    (l.map (fun kv => if kv.1 == n then (n, ed) else kv)).find? (fun kv => kv.1 == n) =
      some (n, ed) := by
  induction l with
  | nil => simp at h
  | cons kv t ih =>
    rw [List.any_cons] at h
    by_cases hk : (kv.1 == n) = true
    · simp only [List.map_cons, if_pos hk]
      exact List.find?_cons_of_pos _ (by simp)
    · have hk' : (kv.1 == n) = false := by
        cases hb : (kv.1 == n)
        · rfl
        · exact absurd hb hk
      rw [hk', Bool.false_or] at h
      simp only [List.map_cons, if_neg hk]
      rw [List.find?_cons_of_neg _ (by simp [hk'])]
      exact ih h

lemma find?_append_single (l : List (String × EffectData)) (n : String) (ed : EffectData)
    (h : l.any (fun kv => kv.1 == n) = false) :
    (l ++ [(n, ed)]).find? (fun kv => kv.1 == n) = some (n, ed) := by
  rw [List.find?_append]
  have hn : l.find? (fun kv => kv.1 == n) = none := by
    rw [List.find?_eq_none]
    intro kv hkv
    have h2 := (List.any_eq_false.mp h) kv hkv
    simpa using h2
  rw [hn]
  simp [List.find?_cons]

lemma getEffect_setEffect_same (e : Entity) (n : String) (ed : EffectData) :
    getEffect (setEffect e n ed) n = some ed := by
  unfold getEffect setEffect
  by_cases h : e.effects.any (fun kv => kv.1 == n) = true
  · rw [if_pos h]
    show ((e.effects.map (fun kv => if kv.1 == n then (n, ed) else kv)).find?
      (fun kv => kv.1 == n)).map (fun kv => kv.2) = some ed
    rw [find?_map_replace e.effects n ed h]
    rfl
  · have hf : e.effects.any (fun kv => kv.1 == n) = false := by
      cases hb : e.effects.any (fun kv => kv.1 == n)
      · rfl
      · exact absurd hb h
    rw [if_neg h]
    show ((e.effects ++ [(n, ed)]).find? (fun kv => kv.1 == n)).map (fun kv => kv.2) = some ed
    rw [find?_append_single e.effects n ed hf]
    rfl

lemma setEffect_hp (e : Entity) (n : String) (ed : EffectData) :
    (setEffect e n ed).hp = e.hp := by
  unfold setEffect
  split_ifs <;> rfl

lemma setEffect_maxHp (e : Entity) (n : String) (ed : EffectData) :
    (setEffect e n ed).maxHp = e.maxHp := by
  unfold setEffect
  split_ifs <;> rfl

lemma computeDamage_hp (a d : Entity) : (computeDamage a d).2.hp = d.hp := by
  rcases h : getEffect d "Shield" with _ | sh
  · simp only [computeDamage, h]
  · simp only [computeDamage, h]
    split_ifs with h2
    · exact setEffect_hp _ _ _
    · rfl

lemma computeDamage_maxHp (a d : Entity) : (computeDamage a d).2.maxHp = d.maxHp := by
  rcases h : getEffect d "Shield" with _ | sh
  · simp only [computeDamage, h]
  · simp only [computeDamage, h]
    split_ifs with h2
    · exact setEffect_maxHp _ _ _
    · rfl

lemma incomingDamage_nonneg (a : Entity) : 0 ≤ incomingDamage a := le_max_left 0 _

lemma pyRoundFrac_one (n : ℤ) : pyRoundFrac n 1 = n := by
  simp only [pyRoundFrac]
  rw [Int.fdiv_one]
  split_ifs <;> omega

lemma pyRound_intCast (n : ℤ) : pyRound (n : ℚ) = n := by
  simp only [pyRound, Rat.intCast_num, Rat.intCast_den]
  exact pyRoundFrac_one n

lemma pyRound_cast_mul_two (n : ℤ) : pyRound ((n : ℚ) * 2) = 2 * n := by
  have h : ((n : ℚ) * 2) = ((2 * n : ℤ) : ℚ) := by push_cast; ring
  rw [h, pyRound_intCast]

lemma computeDamage_fst_nonneg (a d : Entity) : 0 ≤ (computeDamage a d).1 := by
  rcases h : getEffect d "Shield" with _ | sh
  · simp only [computeDamage, h]
    exact le_max_left 0 _
  · simp only [computeDamage, h]
    split_ifs with h2
    · exact le_max_left 0 _
    · exact le_max_left 0 _

lemma attackAux_player (g1 : Game) (ar dr : ERef) (a d2 : Entity) (dmg : ℤ) :
    (attackAux g1 ar dr a d2 dmg).player = g1.player := by
  unfold attackAux
  split_ifs <;> rfl

lemma attackAux_enemies (g1 : Game) (ar dr : ERef) (a d2 : Entity) (dmg : ℤ) :
    (attackAux g1 ar dr a d2 dmg).enemies = g1.enemies := by
  unfold attackAux
  split_ifs <;> rfl

lemma getEnt_attackAux (g1 : Game) (ar dr : ERef) (a d2 : Entity) (dmg : ℤ) (r : ERef) :
    getEnt (attackAux g1 ar dr a d2 dmg) r = getEnt g1 r := by
  cases r with
  | none => simp only [getEnt, attackAux_player]
  | some i => simp only [getEnt, attackAux_enemies, attackAux_player]

lemma getEnt_setEnt_same (g : Game) (dr : ERef) (e : Entity)
    (hdr : dr = none ∨ ∃ i, dr = some i ∧ i < g.enemies.length) :
    getEnt (setEnt g dr e) dr = e := by
  rcases hdr with h | ⟨i, h, hi⟩
  · subst h; rfl
  · subst h
    simp only [getEnt, setEnt]
    rw [List.getD_eq_getElem?_getD, List.getElem?_set_self hi]
    rfl

lemma getEnt_attack (g : Game) (ar dr : ERef)
    (hdr : dr = none ∨ ∃ i, dr = some i ∧ i < g.enemies.length) :
    getEnt (attack g ar dr) dr =
      { (computeDamage (getEnt g ar) (getEnt g dr)).2 with
        hp := (computeDamage (getEnt g ar) (getEnt g dr)).2.hp -
          (computeDamage (getEnt g ar) (getEnt g dr)).1 } := by
  simp only [attack]
  rw [getEnt_attackAux]
  exact getEnt_setEnt_same g dr _ hdr

/-- C2: the damage of one attack is
`round(max(0, power + frenzy − hex) * (2.0 if Aim is active else 1.0))`,
never negative, and a defender's active shield absorbs it first: a pool at
least as large as the incoming damage leaves HP unchanged and shrinks by
exactly that damage, a smaller pool drops to 0 and only the remainder hits
HP. -/
theorem attack_damage_spec (g : Game) (ar dr : ERef)
    (hmul : ∀ aim, getEffect (getEnt g ar) "Aim" = some aim → aim.mul = 2)
    (hdr : dr = none ∨ ∃ i, dr = some i ∧ i < g.enemies.length) :
    incomingDamage (getEnt g ar) =
      pyRound (((max 0 ((getEnt g ar).power + atkMod (getEnt g ar)) : ℤ) : ℚ) *
        (if aimActiveB (getEnt g ar) then 2 else 1)) ∧
    0 ≤ (computeDamage (getEnt g ar) (getEnt g dr)).1 ∧
    (getEnt (attack g ar dr) dr).hp =
      (getEnt g dr).hp - (computeDamage (getEnt g ar) (getEnt g dr)).1 ∧
    (∀ sh, getEffect (getEnt g dr) "Shield" = some sh → 0 < sh.dur → 0 ≤ sh.temp →
      ((incomingDamage (getEnt g ar) ≤ sh.temp →
          (computeDamage (getEnt g ar) (getEnt g dr)).1 = 0 ∧
          getEffect (computeDamage (getEnt g ar) (getEnt g dr)).2 "Shield" =
            some { sh with temp := sh.temp - incomingDamage (getEnt g ar) }) ∧
        (sh.temp < incomingDamage (getEnt g ar) →
          (computeDamage (getEnt g ar) (getEnt g dr)).1 =
            incomingDamage (getEnt g ar) - sh.temp ∧
          getEffect (computeDamage (getEnt g ar) (getEnt g dr)).2 "Shield" =
            some { sh with temp := 0 }))) ∧
    (getEffect (getEnt g dr) "Shield" = none →
      (computeDamage (getEnt g ar) (getEnt g dr)).1 = incomingDamage (getEnt g ar)) := by
  set a := getEnt g ar with ha
  set d := getEnt g dr with hd
  have hbase : (0 : ℤ) ≤ max 0 (a.power + atkMod a) := le_max_left 0 _
  refine ⟨?_, computeDamage_fst_nonneg a d, ?_, ?_, ?_⟩
  · -- the formula
    rcases haim : getEffect a "Aim" with _ | aim
    · simp only [incomingDamage, aimActiveB, haim, Bool.false_eq_true, if_false,
        Rat.num_one, Rat.den_one, Nat.cast_one, mul_one, pyRoundFrac_one, pyRound_intCast]
      omega
    · have hm := hmul aim haim
      by_cases hdur : 0 < aim.dur
      · simp only [incomingDamage, aimActiveB, haim, hm, if_pos hdur, decide_eq_true_eq,
          Rat.num_ofNat, Rat.den_ofNat, Nat.cast_one, pyRoundFrac_one, pyRound_cast_mul_two]
        omega
      · simp only [incomingDamage, aimActiveB, haim, if_neg hdur, decide_eq_true_eq,
          Rat.num_one, Rat.den_one, Nat.cast_one, mul_one, pyRoundFrac_one, pyRound_intCast]
        omega
  · -- the HP equation of a full attack
    rw [getEnt_attack g ar dr hdr, ← ha, ← hd]
    show (computeDamage a d).2.hp - (computeDamage a d).1 = d.hp - (computeDamage a d).1
    rw [computeDamage_hp]
  · -- shield absorption
    intro sh hsh hdur htemp
    have hinc := incomingDamage_nonneg a
    constructor
    · intro hle
      have hmin : min (incomingDamage a) sh.temp = incomingDamage a := min_eq_left hle
      rcases lt_or_eq_of_le htemp with hpos | hzero
      · have hcd : computeDamage a d =
            (max 0 (incomingDamage a - incomingDamage a),
             setEffect d "Shield" { sh with temp := sh.temp - incomingDamage a }) := by
          simp only [computeDamage, hsh]
          rw [if_pos ⟨hdur, hpos⟩, hmin]
        simp only [hcd]
        exact ⟨by omega, getEffect_setEffect_same d "Shield" _⟩
      · have h0 : incomingDamage a = 0 := by omega
        have hcd : computeDamage a d = (max 0 (incomingDamage a), d) := by
          simp only [computeDamage, hsh]
          rw [if_neg (by omega)]
        simp only [hcd]
        refine ⟨by omega, ?_⟩
        rw [hsh, h0]
        congr 1
        cases sh
        simp only [EffectData.mk.injEq, true_and, and_true]
        omega
    · intro hlt
      have hmin : min (incomingDamage a) sh.temp = sh.temp := min_eq_right (le_of_lt hlt)
      rcases lt_or_eq_of_le htemp with hpos | hzero
      · have hcd : computeDamage a d =
            (max 0 (incomingDamage a - sh.temp),
             setEffect d "Shield" { sh with temp := sh.temp - sh.temp }) := by
          simp only [computeDamage, hsh]
          rw [if_pos ⟨hdur, hpos⟩, hmin]
        simp only [hcd]
        refine ⟨by omega, ?_⟩
        rw [getEffect_setEffect_same d "Shield" { sh with temp := sh.temp - sh.temp }]
        congr 1
        cases sh
        simp only [EffectData.mk.injEq, true_and, and_true]
        omega
      · have hcd : computeDamage a d = (max 0 (incomingDamage a), d) := by
          simp only [computeDamage, hsh]
          rw [if_neg (by omega)]
        simp only [hcd]
        refine ⟨by omega, ?_⟩
        rw [hsh, hzero]
  · -- no shield
    intro hnone
    have hcd : computeDamage a d = (max 0 (incomingDamage a), d) := by
      simp only [computeDamage, hnone]
    simp only [hcd]
    exact max_eq_right (incomingDamage_nonneg a)

/-- Witness for C2: the spec's own scenario — power 5 against a defender
with 8 HP and a shield pool of 3 takes the defender to 6 HP. -/
theorem attack_damage_spec_witness :
    (getEnt (attack gC2 none (some 0)) (some 0)).hp = 6 := by
  have hnone : getEffect (getEnt gC2 none) "Aim" = none := by decide
  have h := attack_damage_spec gC2 none (some 0)
    (fun aim ha => Option.noConfusion (hnone.symm.trans ha)) (Or.inr ⟨0, rfl, by decide⟩)
  have hinc : incomingDamage (getEnt gC2 none) = 5 := by decide
  have hsh : getEffect (getEnt gC2 (some 0)) "Shield" = some ⟨3, 1, 3, 2⟩ := by decide
  have hclause := (h.2.2.2.1 ⟨3, 1, 3, 2⟩ hsh (by decide) (by decide)).2
  have hlt : (⟨3, 1, 3, 2⟩ : EffectData).temp < incomingDamage (getEnt gC2 none) := by
    rw [hinc]; decide
  rw [h.2.2.1, (hclause hlt).1, hinc]
  decide

/-! ### HP bounds under the turn-engine operations -/

lemma getEnt_addLog (g : Game) (s : String) (r : ERef) :
    getEnt (addLog g s) r = getEnt g r := by
  cases r <;> rfl

lemma usePotion_player_maxHp (g : Game) (manual : Bool) :
    (usePotion g manual).2.player.maxHp = g.player.maxHp := by
  simp only [usePotion]
  split_ifs <;> rfl

lemma usePotion_player_hp_cases (g : Game) (manual : Bool) :
    (usePotion g manual).2.player.hp = g.player.hp ∨
    (usePotion g manual).2.player.hp = min g.player.maxHp (g.player.hp + 8) := by
  simp only [usePotion]
  split_ifs <;> first
    | exact Or.inl rfl
    | exact Or.inr rfl

/-- C3 (counterexample): an attack with 5 power against a full-fledged
defender sitting at 1 HP leaves the defender at `-4` HP — the code never
clamps HP to 0 from below, so the invariant `0 ≤ hp` is broken by
`Game.attack` on any overkill blow. -/
theorem hp_can_go_negative :
    0 ≤ (getEnt gC3 (some 0)).hp ∧
    (getEnt gC3 (some 0)).hp ≤ (getEnt gC3 (some 0)).maxHp ∧
    (getEnt (attack gC3 none (some 0)) (some 0)).hp = -4 := by
  refine ⟨by decide, by decide, ?_⟩
  have hnoneAim : getEffect (getEnt gC3 none) "Aim" = none := by decide
  have hnoneSh : getEffect (getEnt gC3 (some 0)) "Shield" = none := by decide
  have hinc : incomingDamage (getEnt gC3 none) = 5 := by decide
  have hcd : computeDamage (getEnt gC3 none) (getEnt gC3 (some 0)) =
      (max 0 (incomingDamage (getEnt gC3 none)), getEnt gC3 (some 0)) := by
    simp only [computeDamage, hnoneSh]
  rw [getEnt_attack gC3 none (some 0) (Or.inr ⟨0, rfl, by decide⟩)]
  simp only [hcd, hinc]
  have h1 : (getEnt gC3 (some 0)).hp = 1 := by decide
  rw [h1]
  omega

/-- C3 (amended): potion use, troll regeneration and shield application do
preserve `0 ≤ hp ≤ max_hp`, and an attack never raises HP or changes
`max_hp` and deals non-negative damage — but an attack may drive HP
strictly below 0; the only guarantee at the bottom end is that a defender
at `hp ≤ 0` counts as dead. -/
theorem hp_bounds_amended (g : Game) (manual : Bool) (i : ℕ) (nameL : String)
    (e : Entity) (amount dur : ℤ) (ar dr : ERef)
    (hp0 : 0 ≤ g.player.hp) (hpM : g.player.hp ≤ g.player.maxHp)
    (hi : i < g.enemies.length)
    (he0 : 0 ≤ (getEnt g (some i)).hp)
    (heM : (getEnt g (some i)).hp ≤ (getEnt g (some i)).maxHp)
    (hdr : dr = none ∨ ∃ k, dr = some k ∧ k < g.enemies.length) :
    (0 ≤ (usePotion g manual).2.player.hp ∧
      (usePotion g manual).2.player.hp ≤ (usePotion g manual).2.player.maxHp) ∧
    (0 ≤ (getEnt (trollEndOfTurn g i nameL) (some i)).hp ∧
      (getEnt (trollEndOfTurn g i nameL) (some i)).hp ≤
        (getEnt (trollEndOfTurn g i nameL) (some i)).maxHp) ∧
    (applyShield e amount dur).hp = e.hp ∧
    (getEnt (attack g ar dr) dr).maxHp = (getEnt g dr).maxHp ∧
    (getEnt (attack g ar dr) dr).hp ≤ (getEnt g dr).hp ∧
    ((getEnt (attack g ar dr) dr).hp ≤ 0 →
      (getEnt (attack g ar dr) dr).isAlive = false) := by
  have hek := getEnt_attack g ar dr hdr
  refine ⟨?_, ?_, ?_, ?_, ?_, ?_⟩
  · have hM := usePotion_player_maxHp g manual
    rcases usePotion_player_hp_cases g manual with h | h <;> rw [h, hM] <;> omega
  · have hset : ∀ X : Entity, getEnt (setEnt g (some i) X) (some i) = X :=
      fun X => getEnt_setEnt_same g (some i) X (Or.inr ⟨i, rfl, hi⟩)
    simp only [trollEndOfTurn]
    split_ifs <;> (try simp only [getEnt_addLog, hset]) <;> omega
  · simp only [applyShield]
    exact setEffect_hp _ _ _
  · rw [hek]
    show (computeDamage (getEnt g ar) (getEnt g dr)).2.maxHp = (getEnt g dr).maxHp
    exact computeDamage_maxHp _ _
  · rw [hek]
    show (computeDamage (getEnt g ar) (getEnt g dr)).2.hp -
        (computeDamage (getEnt g ar) (getEnt g dr)).1 ≤ (getEnt g dr).hp
    have h1 := computeDamage_fst_nonneg (getEnt g ar) (getEnt g dr)
    have h2 := computeDamage_hp (getEnt g ar) (getEnt g dr)
    omega
  · intro h
    simp only [Entity.isAlive, decide_eq_false_iff_not]
    omega

/-- Witness for the amended C3 theorem at a concrete state. -/
theorem hp_bounds_amended_witness :
    (0 ≤ (usePotion gC3 true).2.player.hp ∧
      (usePotion gC3 true).2.player.hp ≤ (usePotion gC3 true).2.player.maxHp) ∧
    (0 ≤ (getEnt (trollEndOfTurn gC3 0 "troll") (some 0)).hp ∧
      (getEnt (trollEndOfTurn gC3 0 "troll") (some 0)).hp ≤
        (getEnt (trollEndOfTurn gC3 0 "troll") (some 0)).maxHp) ∧
    (applyShield ⟨0, 0, "g", "Goblin", 5, 9, 1, []⟩ 3 2).hp =
      (⟨0, 0, "g", "Goblin", 5, 9, 1, []⟩ : Entity).hp ∧
    (getEnt (attack gC3 none (some 0)) (some 0)).maxHp = (getEnt gC3 (some 0)).maxHp ∧
    (getEnt (attack gC3 none (some 0)) (some 0)).hp ≤ (getEnt gC3 (some 0)).hp ∧
    ((getEnt (attack gC3 none (some 0)) (some 0)).hp ≤ 0 →
      (getEnt (attack gC3 none (some 0)) (some 0)).isAlive = false) :=
  hp_bounds_amended gC3 true 0 "troll" ⟨0, 0, "g", "Goblin", 5, 9, 1, []⟩ 3 2 none (some 0)
    (by decide) (by decide) (by decide) (by decide) (by decide)
    (Or.inr ⟨0, rfl, by decide⟩)

/-! ### The shield-drain side effect of `_compute_damage` -/

/-- C10: `_compute_damage` is not observation-only — against a defender
with an active positive shield pool it writes the drained pool back into
the defender's effect dict (pool decreases by the absorbed amount, and
strictly whenever the incoming damage is positive).  Consequently the
archer shoot branch, which calls it once for the log line and again inside
`attack`, drains a shielded player twice per shot: with a pool of 8
against a 4-damage shot a single call leaves pool 4, but the branch leaves
pool 0 with HP still 20; with a pool of 4 the shot reports
`Archer shoots (-0)` while actually dealing 4 damage (HP 20 → 16). -/
theorem compute_damage_drains_shield (a d : Entity) (sh : EffectData)
    (hsh : getEffect d "Shield" = some sh) (hdur : 0 < sh.dur) (htemp : 0 < sh.temp) :
    (getEffect (computeDamage a d).2 "Shield" =
      some { sh with temp := sh.temp - min (incomingDamage a) sh.temp } ∧
      (0 < incomingDamage a →
        sh.temp - min (incomingDamage a) sh.temp < sh.temp)) ∧
    getEffect (computeDamage (getEnt (gC10 8) (some 0)) (gC10 8).player).2 "Shield" =
      some ⟨3, 1, 4, 2⟩ ∧
    (enemyRoleAction (gC10 8) 0).2.player.hp = 20 ∧
    getEffect (enemyRoleAction (gC10 8) 0).2.player "Shield" = some ⟨3, 1, 0, 2⟩ ∧
    (enemyRoleAction (gC10 4) 0).2.player.hp = 16 ∧
    (enemyRoleAction (gC10 4) 0).2.log =
      ["Archer hits you for 4.", "Archer shoots (-0)"] := by
  refine ⟨⟨?_, ?_⟩, by decide, by decide, by decide, by decide, by decide⟩
  · simp only [computeDamage, hsh]
    rw [if_pos ⟨hdur, htemp⟩]
    exact getEffect_setEffect_same d "Shield" _
  · intro hpos
    omega

/-- Witness for C10's hypotheses: the pool-8 player of the archer
scenario. -/
theorem compute_damage_drains_shield_witness :
    getEffect (computeDamage (getEnt (gC10 8) (some 0)) (gC10 8).player).2 "Shield" =
      some { (⟨3, 1, 8, 2⟩ : EffectData) with
        temp := (⟨3, 1, 8, 2⟩ : EffectData).temp -
          min (incomingDamage (getEnt (gC10 8) (some 0)))
            (⟨3, 1, 8, 2⟩ : EffectData).temp } ∧
    (0 < incomingDamage (getEnt (gC10 8) (some 0)) →
      (⟨3, 1, 8, 2⟩ : EffectData).temp -
          min (incomingDamage (getEnt (gC10 8) (some 0)))
            (⟨3, 1, 8, 2⟩ : EffectData).temp <
        (⟨3, 1, 8, 2⟩ : EffectData).temp) :=
  (compute_damage_drains_shield (getEnt (gC10 8) (some 0)) (gC10 8).player ⟨3, 1, 8, 2⟩
    (by decide) (by decide) (by decide)).1

/-! ### The archer aim/decay interaction -/

/-- C5 (code bug): the archer grants itself `Aim` with duration 1, but
`_decay_effects` runs for the enemy at the end of that same enemy turn and
strips any effect whose duration reaches 0 — so the `Aim` is gone before
the next phase begins.  Starting from an aligned, in-range, in-LOS archer
with no cooldown: after one enemy phase the log shows `Archer aims` and no
`Aim` effect remains; after a second phase the archer has merely aimed
again (log `Archer aims, Archer aims`), the player still has 20 HP, and no
`Aim` effect exists — the spec's aim-then-fire cycle never reaches the
fire step. -/
theorem archer_never_fires :
    (enemyTurns gC5).log = ["Archer aims"] ∧
    getEffect (getEnt (enemyTurns gC5) (some 0)) "Aim" = none ∧
    (enemyTurns (enemyTurns gC5)).log = ["Archer aims", "Archer aims"] ∧
    (enemyTurns (enemyTurns gC5)).player.hp = 20 ∧
    getEffect (getEnt (enemyTurns (enemyTurns gC5)) (some 0)) "Aim" = none :=
  ⟨by decide, by decide, by decide, by decide, by decide⟩

/-! ### Blocked player moves and turn consumption -/

/-- C4 (counterexample): bumping into a wall does consume the turn.  The
player at `(0,0)` presses RIGHT into the wall at `(1,0)`: the action
reports the turn as taken while changing nothing, and the full
player-turn glue then runs the enemy phase (the adjacent goblin hits the
player for 2) and advances the turn counter to 2. -/
theorem blocked_move_consumes_turn :
    (handlePlayerAction gC4 "RIGHT").1 = true ∧
    (handlePlayerAction gC4 "RIGHT").2.player = gC4.player ∧
    (handlePlayerAction gC4 "RIGHT").2.map = gC4.map ∧
    (handlePlayerAction gC4 "RIGHT").2.turn = 1 ∧
    (handlePlayerAction gC4 "RIGHT").2.log = [] ∧
    (runPlayerTurn gC4 "RIGHT").turn = 2 ∧
    (runPlayerTurn gC4 "RIGHT").player.hp = 18 ∧
    (runPlayerTurn gC4 "RIGHT").log = ["Goblin hits you for 2."] ∧
    (runPlayerTurn gC4D "RIGHT").turn = 2 ∧
    (runPlayerTurn gC4D "RIGHT").log = ["Auto: need Key"] :=
  ⟨by decide, by decide, by decide, by decide, by decide,
   by decide, by decide, by decide, by decide, by decide⟩

/-- C4 (amended): an intent into a wall (or out of bounds) leaves the
state exactly unchanged, and an intent onto a closed locked door without a
key only logs `Auto: need Key` — but in both cases the action still
reports the turn as consumed, so the enemy phase runs on the unchanged
state and the turn counter advances. -/
theorem blocked_move_amended (g : Game) (key : String) (dxy : ℤ × ℤ) (dr : Door)
    (hk : dirOfKey key = some dxy) :
    (g.map.isWalkable (g.player.x + dxy.1) (g.player.y + dxy.2) = false →
      handlePlayerAction g key = (true, g) ∧
      (g.state = "playing" →
        runPlayerTurn g key = { enemyTurns g with turn := (enemyTurns g).turn + 1 })) ∧
    (g.map.inBounds (g.player.x + dxy.1) (g.player.y + dxy.2) = true →
      g.map.isWalkable (g.player.x + dxy.1) (g.player.y + dxy.2) = true →
      enemyIdxAt g (g.player.x + dxy.1) (g.player.y + dxy.2) = none →
      g.map.doorAt (g.player.x + dxy.1) (g.player.y + dxy.2) = some dr →
      dr.opened = false → dr.locked = true → g.invKey ≤ 0 →
      handlePlayerAction g key = (true, addLog g "Auto: need Key")) := by
  have hdot : ¬ key = "." := by
    intro h
    have h0 : dirOfKey "." = none := by decide
    rw [h, h0] at hk
    exact Option.noConfusion hk
  have hU : ¬ key = "U" := by
    intro h
    have h0 : dirOfKey "U" = none := by decide
    rw [h, h0] at hk
    exact Option.noConfusion hk
  constructor
  · intro hwall
    have hm : moveEntity g none dxy.1 dxy.2 true = g := by
      by_cases hb : g.map.inBounds (g.player.x + dxy.1) (g.player.y + dxy.2) = true
      · simp [moveEntity, getEnt, hb, hwall]
      · simp [moveEntity, getEnt, hb]
    have h1 : handlePlayerAction g key = (true, g) := by
      simp only [handlePlayerAction, if_neg hdot, if_neg hU, hk, hm]
    refine ⟨h1, fun hplay => ?_⟩
    simp [runPlayerTurn, h1, hplay]
  · intro hin hw hnoe hdoor hop hlk hkey
    have hm : moveEntity g none dxy.1 dxy.2 true = addLog g "Auto: need Key" := by
      simp [moveEntity, getEnt, hin, hw, hnoe, hdoor, hop, hlk, hkey]
    simp only [handlePlayerAction, if_neg hdot, if_neg hU, hk, hm]

/-- Witness for the amended C4 theorem: the wall bump and the locked-door
bump of the counterexample states. -/
theorem blocked_move_amended_witness :
    (handlePlayerAction gC4 "RIGHT" = (true, gC4) ∧
      (gC4.state = "playing" →
        runPlayerTurn gC4 "RIGHT" =
          { enemyTurns gC4 with turn := (enemyTurns gC4).turn + 1 })) ∧
    handlePlayerAction gC4D "RIGHT" = (true, addLog gC4D "Auto: need Key") :=
  ⟨(blocked_move_amended gC4 "RIGHT" (1, 0) ⟨1, 0, false, true⟩ (by decide)).1 (by decide),
   (blocked_move_amended gC4D "RIGHT" (1, 0) ⟨1, 0, false, true⟩ (by decide)).2
     (by decide) (by decide) (by decide) (by decide) (by decide) (by decide) (by decide)⟩

/-! ### Loading a malformed save -/

/-- C8 (code bug): an unreadable file is handled gracefully (log
`Failed to load`, return `False`, state untouched), but a *valid* JSON
save with missing fields is not: on `{}` the code first overwrites
`state`, `turn`, `seed`, the RNG and the tier with load defaults and then
raises `KeyError: 'player'` at the bare `data["player"]` subscript,
leaving the half-mutated state behind — the prior state (here turn 7,
`playing`, seed 42, tier 2) is neither kept nor restored, against the
spec's "reject or gracefully default malformed/missing fields rather than
crash". -/
theorem load_missing_player_raises :
    loadGame gC8 none = .ok (false, addLog gC8 "Failed to load") ∧
    loadGame gC8 (some emptySave) =
      .error ("KeyError: player",
        { gC8 with state := "paused", turn := 1, seed := 1337,
                   rng := seedRNG 1337, menuTier := 1 }) ∧
    gC8.turn = 7 ∧ gC8.state = "playing" ∧ gC8.seed = 42 ∧ gC8.menuTier = 2 :=
  ⟨rfl, rfl, rfl, rfl, rfl, rfl⟩

/-! ### The priest's shield target -/

lemma mem_insertSorted {α : Type} (le : α → α → Bool) (a x : α) (l : List α) :
    x ∈ insertSorted le a l ↔ x = a ∨ x ∈ l := by
  induction l with
  | nil => simp [insertSorted]
  | cons b t ih =>
    simp only [insertSorted]
    split_ifs with hb
    · rw [List.mem_cons, ih, List.mem_cons]
      tauto
    · simp only [List.mem_cons]

lemma mem_insSortBy_aux {α : Type} (le : α → α → Bool) (l acc : List α) (x : α) :
    x ∈ l.foldl (fun acc a => insertSorted le a acc) acc ↔ x ∈ acc ∨ x ∈ l := by
  induction l generalizing acc with
  | nil => simp
  | cons b t ih =>
    rw [List.foldl_cons, ih, mem_insertSorted, List.mem_cons]
    tauto

lemma mem_insSortBy {α : Type} (le : α → α → Bool) (l : List α) (x : α) :
    x ∈ insSortBy le l ↔ x ∈ l := by
  simp only [insSortBy]
  rw [mem_insSortBy_aux]
  simp

lemma pairwise_insertSorted {α : Type} (le : α → α → Bool)
    (htot : ∀ a b, le a b = true ∨ le b a = true)
    (htrans : ∀ a b c, le a b = true → le b c = true → le a c = true)
    (a : α) (l : List α) (hl : l.Pairwise (fun x y => le x y = true)) :
    (insertSorted le a l).Pairwise (fun x y => le x y = true) := by
  induction l with
  | nil => simp [insertSorted]
  | cons b t ih =>
    rw [List.pairwise_cons] at hl
    simp only [insertSorted]
    split_ifs with hb
    · rw [List.pairwise_cons]
      refine ⟨?_, ih hl.2⟩
      intro x hx
      rcases (mem_insertSorted le a x t).mp hx with rfl | hxt
      · exact hb
      · exact hl.1 x hxt
    · rw [List.pairwise_cons]
      constructor
      · intro x hx
        rcases List.mem_cons.mp hx with rfl | hxt
        · rcases htot a x with hab | hba
          · exact hab
          · exact absurd hba hb
        · rcases htot a b with hab | hba
          · exact htrans a b x hab (hl.1 x hxt)
          · exact absurd hba hb
      · exact List.pairwise_cons.mpr hl

lemma pairwise_insSortBy {α : Type} (le : α → α → Bool)
    (htot : ∀ a b, le a b = true ∨ le b a = true)
    (htrans : ∀ a b c, le a b = true → le b c = true → le a c = true)
    (l : List α) :
    (insSortBy le l).Pairwise (fun x y => le x y = true) := by
  suffices h : ∀ acc : List α, acc.Pairwise (fun x y => le x y = true) →
      (l.foldl (fun acc a => insertSorted le a acc) acc).Pairwise
        (fun x y => le x y = true) by
    exact h [] (by simp)
  induction l with
  | nil =>
    intro acc hacc
    simpa using hacc
  | cons b t ih =>
    intro acc hacc
    rw [List.foldl_cons]
    exact ih _ (pairwise_insertSorted le htot htrans b acc hacc)

/-- C9 (counterexample): the priest at `(1,1)` shields the adjacent ally
with HP deficit 1 and leaves the distant ally with deficit 13 (alive at
1/14 HP) untouched — the candidate sort key is distance only, never the
wound. -/
theorem priest_ignores_wound_severity :
    priestPick gC9 0 1 1 = some 1 ∧
    getEffect (getEnt (enemyRoleAction gC9 0).2 (some 1)) "Shield" = some ⟨3, 1, 3, 2⟩ ∧
    getEffect (getEnt (enemyRoleAction gC9 0).2 (some 2)) "Shield" = none ∧
    (getEnt gC9 (some 1)).maxHp - (getEnt gC9 (some 1)).hp = 1 ∧
    (getEnt gC9 (some 2)).maxHp - (getEnt gC9 (some 2)).hp = 13 ∧
    (getEnt gC9 (some 2)).isAlive = true :=
  ⟨by decide, by decide, by decide, by decide, by decide, by decide⟩

/-- C9 (amended): the priest's shield recipient is a living wounded member
of the roster (self included) at *minimal Manhattan distance* to the
priest; the HP deficit plays no role in the choice. -/
theorem priest_targets_closest (g : Game) (i : ℕ) (ex ey : ℤ) (j : ℕ)
    (h : priestPick g i ex ey = some j) :
    j ∈ priestCand g i ∧
    (g.enemies.getD j g.player).isAlive = true ∧
    (g.enemies.getD j g.player).hp < (g.enemies.getD j g.player).maxHp ∧
    ∀ k ∈ priestCand g i, priestDist g ex ey j ≤ priestDist g ex ey k := by
  set le := fun j k : ℕ => decide (priestDist g ex ey j ≤ priestDist g ex ey k) with hledef
  have htot : ∀ a b, le a b = true ∨ le b a = true := by
    intro a b
    rw [hledef]
    simp only [decide_eq_true_eq]
    exact le_total _ _
  have htrans : ∀ a b c, le a b = true → le b c = true → le a c = true := by
    intro a b c hab hbc
    rw [hledef] at *
    simp only [decide_eq_true_eq] at *
    exact le_trans hab hbc
  have hpw := pairwise_insSortBy le htot htrans (priestCand g i)
  simp only [priestPick] at h
  rw [← hledef] at h
  rcases hcase : insSortBy le (priestCand g i) with _ | ⟨hd, t⟩
  · rw [hcase] at h
    exact absurd h (by simp)
  · rw [hcase] at h
    simp only [List.head?_cons, Option.some.injEq] at h
    rw [h] at hcase
    have hjmem : j ∈ priestCand g i := by
      rw [← mem_insSortBy le, hcase]
      exact List.mem_cons_self _ _
    have hmin : ∀ k ∈ priestCand g i, priestDist g ex ey j ≤ priestDist g ex ey k := by
      intro k hk
      have hkmem : k ∈ insSortBy le (priestCand g i) := (mem_insSortBy le _ k).mpr hk
      rw [hcase] at hkmem
      rcases List.mem_cons.mp hkmem with rfl | hkt
      · exact le_refl _
      · rw [hcase, List.pairwise_cons] at hpw
        have := hpw.1 k hkt
        rw [hledef] at this
        simpa only [decide_eq_true_eq] using this
    have hflt : ((fun j => ((g.enemies.getD j g.player).isAlive &&
        decide ((g.enemies.getD j g.player).hp < (g.enemies.getD j g.player).maxHp) : Bool))
          j = true) := by
      have := (List.mem_filter.mp (by simpa only [priestCand] using hjmem)).2
      simpa using this
    simp only [Bool.and_eq_true, decide_eq_true_eq] at hflt
    exact ⟨hjmem, hflt.1, hflt.2, hmin⟩

/-- Witness for the amended C9 theorem at the two-ally scenario. -/
theorem priest_targets_closest_witness :
    1 ∈ priestCand gC9 0 ∧
    (gC9.enemies.getD 1 gC9.player).isAlive = true ∧
    (gC9.enemies.getD 1 gC9.player).hp < (gC9.enemies.getD 1 gC9.player).maxHp ∧
    ∀ k ∈ priestCand gC9 0, priestDist gC9 1 1 1 ≤ priestDist gC9 1 1 k :=
  priest_targets_closest gC9 0 1 1 1 (by decide)

/-! ### The flee rule of the planner -/

lemma fleeBest_fold (g : Game) (vis : List Entity) (l : List Pos) (acc : Option Pos × ℤ)
    (hacc : ∀ b, acc.1 = some b → acc.2 = minDistToVis vis b) :
    (∀ b, (l.foldl (fun acc c =>
        if c ≠ (g.player.x, g.player.y) ∧ isOccupied g c.1 c.2 then acc
        else if acc.2 < minDistToVis vis c then (some c, minDistToVis vis c) else acc)
        acc).1 = some b →
      (l.foldl (fun acc c =>
        if c ≠ (g.player.x, g.player.y) ∧ isOccupied g c.1 c.2 then acc
        else if acc.2 < minDistToVis vis c then (some c, minDistToVis vis c) else acc)
        acc).2 = minDistToVis vis b) ∧
    acc.2 ≤ (l.foldl (fun acc c =>
        if c ≠ (g.player.x, g.player.y) ∧ isOccupied g c.1 c.2 then acc
        else if acc.2 < minDistToVis vis c then (some c, minDistToVis vis c) else acc)
        acc).2 ∧
    (∀ c ∈ l, ¬ (c ≠ (g.player.x, g.player.y) ∧ isOccupied g c.1 c.2 = true) →
      minDistToVis vis c ≤ (l.foldl (fun acc c =>
        if c ≠ (g.player.x, g.player.y) ∧ isOccupied g c.1 c.2 then acc
        else if acc.2 < minDistToVis vis c then (some c, minDistToVis vis c) else acc)
        acc).2) := by
  induction l generalizing acc with
  | nil =>
    refine ⟨hacc, le_refl _, ?_⟩
    intro c hc
    exact absurd hc (List.not_mem_nil c)
  | cons c t ih =>
    simp only [List.foldl_cons]
    by_cases hskip : c ≠ (g.player.x, g.player.y) ∧ isOccupied g c.1 c.2 = true
    · rw [if_pos hskip]
      have h := ih acc hacc
      refine ⟨h.1, h.2.1, ?_⟩
      intro c' hc' hadm
      rcases List.mem_cons.mp hc' with rfl | hct
      · exact absurd hskip hadm
      · exact h.2.2 c' hct hadm
    · rw [if_neg hskip]
      by_cases himp : acc.2 < minDistToVis vis c
      · rw [if_pos himp]
        have hacc' : ∀ b, ((some c, minDistToVis vis c) : Option Pos × ℤ).1 = some b →
            ((some c, minDistToVis vis c) : Option Pos × ℤ).2 = minDistToVis vis b := by
          intro b hb
          have hcb : c = b := by simpa using hb
          rw [← hcb]
        have h := ih (some c, minDistToVis vis c) hacc'
        refine ⟨h.1, le_trans (le_of_lt himp) h.2.1, ?_⟩
        intro c' hc' hadm
        rcases List.mem_cons.mp hc' with rfl | hct
        · exact h.2.1
        · exact h.2.2 c' hct hadm
      · rw [if_neg himp]
        have h := ih acc hacc
        refine ⟨h.1, h.2.1, ?_⟩
        intro c' hc' hadm
        rcases List.mem_cons.mp hc' with rfl | hct
        · exact le_trans (not_lt.mp himp) h.2.1
        · exact h.2.2 c' hct hadm

lemma fleeBest_spec (g : Game) (vis : List Entity) (best : Pos)
    (h : (fleeBest g vis).1 = some best) :
    ∀ c ∈ neighbors4 g g.player.x g.player.y ++ [(g.player.x, g.player.y)],
      ¬ (c ≠ (g.player.x, g.player.y) ∧ isOccupied g c.1 c.2 = true) →
      minDistToVis vis c ≤ minDistToVis vis best := by
  have hfb := fleeBest_fold g vis
    (neighbors4 g g.player.x g.player.y ++ [(g.player.x, g.player.y)]) (none, -1)
    (fun b hb => Option.noConfusion hb)
  intro c hc hadm
  have h1 := hfb.1 best (by simpa only [fleeBest] using h)
  have h2 := hfb.2.2 c hc hadm
  exact h1 ▸ h2

/-- C6: at 40%-or-less HP with at least one visible enemy, the planner's
decision comes from the flee rule: it is either a move whose target tile
maximises (over the admitted neighbour tiles and the current tile, skipping
occupied ones) the minimum Manhattan distance to the visible enemies, with
reason `flee (low HP)`, or a `hold (corner)` wait — never an attack. -/
theorem low_hp_flees (g : Game)
    (hstate : g.state = "playing") (halive : g.player.isAlive = true)
    (hlow : g.player.hp ≤ max 1 (Int.fdiv (2 * g.player.maxHp) 5))
    (hvis : visibleEnemies g ≠ []) :
    ∃ r : Game × BotResult, botRuleFlee g = some r ∧ botChooseAction g = r ∧
      ((∃ best : Pos, (fleeBest g (visibleEnemies g)).1 = some best ∧
          best ≠ (g.player.x, g.player.y) ∧
          r = (g, ("move", some (best.1 - g.player.x, best.2 - g.player.y), none,
            "flee (low HP)")) ∧
          ∀ c ∈ neighbors4 g g.player.x g.player.y ++ [(g.player.x, g.player.y)],
            ¬ (c ≠ (g.player.x, g.player.y) ∧ isOccupied g c.1 c.2 = true) →
            minDistToVis (visibleEnemies g) c ≤ minDistToVis (visibleEnemies g) best) ∨
        r = (g, ("wait", none, none, "hold (corner)"))) := by
  have hsf : shouldFlee g = true := by
    simp only [shouldFlee]
    rw [if_pos hlow]
  have hchoose : ∀ r : Game × BotResult, botRuleFlee g = some r → botChooseAction g = r := by
    intro r hr
    simp only [botChooseAction, hr]
    rw [if_neg (not_not_intro ⟨hstate, halive⟩)]
  rcases hcase : (fleeBest g (visibleEnemies g)).1 with _ | best
  · have hr : botRuleFlee g = some (g, ("wait", none, none, "hold (corner)")) := by
      simp [botRuleFlee, hsf, hvis, hcase]
    exact ⟨_, hr, hchoose _ hr, Or.inr rfl⟩
  · by_cases hbp : best = (g.player.x, g.player.y)
    · have hr : botRuleFlee g = some (g, ("wait", none, none, "hold (corner)")) := by
        simp [botRuleFlee, hsf, hvis, hcase, hbp]
      exact ⟨_, hr, hchoose _ hr, Or.inr rfl⟩
    · have hr : botRuleFlee g =
          some (g, ("move", some (best.1 - g.player.x, best.2 - g.player.y), none,
            "flee (low HP)")) := by
        simp [botRuleFlee, hsf, hvis, hcase, hbp]
      exact ⟨_, hr, hchoose _ hr,
        Or.inl ⟨best, rfl, hbp, rfl, fleeBest_spec g (visibleEnemies g) best hcase⟩⟩

/-- Witness for C6: 8/20 HP with an adjacent visible goblin. -/
theorem low_hp_flees_witness :
    ∃ r : Game × BotResult, botRuleFlee gC6 = some r ∧ botChooseAction gC6 = r ∧
      ((∃ best : Pos, (fleeBest gC6 (visibleEnemies gC6)).1 = some best ∧
          best ≠ (gC6.player.x, gC6.player.y) ∧
          r = (gC6, ("move", some (best.1 - gC6.player.x, best.2 - gC6.player.y), none,
            "flee (low HP)")) ∧
          ∀ c ∈ neighbors4 gC6 gC6.player.x gC6.player.y ++ [(gC6.player.x, gC6.player.y)],
            ¬ (c ≠ (gC6.player.x, gC6.player.y) ∧ isOccupied gC6 c.1 c.2 = true) →
            minDistToVis (visibleEnemies gC6) c ≤ minDistToVis (visibleEnemies gC6) best) ∨
        r = (gC6, ("wait", none, none, "hold (corner)"))) :=
  low_hp_flees gC6 rfl (by decide) (by decide) (by decide)

/-! ### Planner safety: admitted tiles only -/

lemma mem_of_head_some {α : Type} {l : List α} {a : α} (h : l.head? = some a) : a ∈ l := by
  cases l with
  | nil => exact Option.noConfusion h
  | cons b t =>
    simp only [List.head?_cons, Option.some.injEq] at h
    exact h ▸ List.mem_cons_self b t

lemma lookupCame_mem (came : List (Pos × Option Pos)) (p : Pos) (v : Option Pos)
    (h : lookupCame came p = some v) : (p, v) ∈ came := by
  simp only [lookupCame] at h
  rcases hf : came.find? (fun kv => kv.1 == p) with _ | kv
  · rw [hf] at h
    exact Option.noConfusion h
  · rw [hf] at h
    simp only [Option.map_some'] at h
    have hm := List.mem_of_find?_eq_some hf
    have hp := List.find?_some hf
    obtain ⟨k1, k2⟩ := kv
    simp only at h hp
    have h1 : k1 = p := by simpa using hp
    have h2 : k2 = v := by simpa using h
    rw [← h1, ← h2]
    exact hm

lemma reconChain_ne_nil (came : List (Pos × Option Pos)) (fuel : ℕ) (cur : Pos) :
    reconChain came fuel cur ≠ [] := by
  cases fuel with
  | zero => simp [reconChain]
  | succ n =>
    simp only [reconChain]
    cases h : lookupCame came cur with
    | none => simp
    | some v =>
      cases v with
      | none => simp
      | some par => simp

lemma reconChain_dropLast (came : List (Pos × Option Pos)) (fuel : ℕ) :
    ∀ (cur : Pos), ∀ p ∈ (reconChain came fuel cur).dropLast,
      ∃ par, lookupCame came p = some (some par) := by
  induction fuel with
  | zero =>
    intro cur p hp
    simp [reconChain] at hp
  | succ n ih =>
    intro cur p hp
    simp only [reconChain] at hp
    cases h : lookupCame came cur with
    | none =>
      rw [h] at hp
      simp at hp
    | some v =>
      cases v with
      | none =>
        rw [h] at hp
        simp at hp
      | some par =>
        rw [h] at hp
        have hp2 : p ∈ (cur :: reconChain came n par).dropLast := hp
        obtain ⟨hd, tl, heq⟩ : ∃ hd tl, reconChain came n par = hd :: tl := by
          cases hc : reconChain came n par with
          | nil => exact absurd hc (reconChain_ne_nil came n par)
          | cons hd tl => exact ⟨hd, tl, rfl⟩
        rw [heq] at hp2
        simp only [List.dropLast] at hp2
        rcases List.mem_cons.mp hp2 with rfl | hpt
        · exact ⟨par, h⟩
        · rw [← heq] at hpt
          exact ih par p hpt

lemma expandFold_cameOk (g : Game) (goals : List Pos) (cur : Pos) (l : List Pos) :
    ∀ acc : List Pos × List (Pos × Option Pos),
      (∀ x ∈ l, neighFilterOk g x = true) →
      (∀ kv ∈ acc.2, ∀ par : Pos, kv.2 = some par → neighFilterOk g kv.1 = true) →
      (∀ kv ∈ (l.foldl (fun (acc : List Pos × List (Pos × Option Pos)) nxt =>
          if (lookupCame acc.2 nxt).isSome then acc
          else if ¬ (nxt ∈ goals) ∧ isOccupied g nxt.1 nxt.2 then acc
          else (acc.1 ++ [nxt], acc.2 ++ [(nxt, some cur)])) acc).2,
        ∀ par : Pos, kv.2 = some par → neighFilterOk g kv.1 = true) := by
  induction l with
  | nil =>
    intro acc _ hacc
    simpa using hacc
  | cons x t ih =>
    intro acc hl hacc
    simp only [List.foldl_cons]
    refine ih _ (fun y hy => hl y (List.mem_cons_of_mem _ hy)) ?_
    by_cases h1 : (lookupCame acc.2 x).isSome = true
    · rw [if_pos h1]
      exact hacc
    · rw [if_neg h1]
      by_cases h2 : ¬ (x ∈ goals) ∧ isOccupied g x.1 x.2 = true
      · rw [if_pos h2]
        exact hacc
      · rw [if_neg h2]
        intro kv hkv par hpar
        rcases List.mem_append.mp hkv with hk | hk
        · exact hacc kv hk par hpar
        · have hx : kv = (x, some cur) := List.mem_singleton.mp hk
          rw [hx]
          exact hl x (List.mem_cons_self _ _)

lemma bfsLoop_sound (g : Game) (goals : List Pos) :
    ∀ fuel qs came path,
      (∀ kv ∈ came, ∀ par : Pos, kv.2 = some par → neighFilterOk g kv.1 = true) →
      bfsLoop g goals fuel qs came = some path →
      ∀ p0 p1 rest, path = p0 :: p1 :: rest → neighFilterOk g p1 = true := by
  intro fuel
  induction fuel with
  | zero =>
    intro qs came path hok h
    simp [bfsLoop] at h
  | succ n ih =>
    intro qs came path hok h p0 p1 rest hpath
    cases qs with
    | nil => simp [bfsLoop] at h
    | cons cur q =>
      simp only [bfsLoop] at h
      by_cases hg : cur ∈ goals
      · rw [if_pos hg] at h
        simp only [Option.some.injEq] at h
        have hrev : (reconChain came came.length cur).reverse = p0 :: p1 :: rest := by
          rw [h, hpath]
        have hchain : reconChain came came.length cur = (p0 :: p1 :: rest).reverse := by
          rw [← hrev, List.reverse_reverse]
        have hdl : p1 ∈ (reconChain came came.length cur).dropLast := by
          rw [hchain]
          simp [List.reverse_cons, List.dropLast_concat]
        obtain ⟨par, hpar⟩ := reconChain_dropLast came came.length cur p1 hdl
        exact hok (p1, some par) (lookupCame_mem came p1 (some par) hpar) par rfl
      · rw [if_neg hg] at h
        refine ih _ _ path ?_ h p0 p1 rest hpath
        exact expandFold_cameOk g goals cur (neighbors4 g cur.1 cur.2) (q, came)
          (fun x hx => List.of_mem_filter hx) hok

lemma bfsPath_step_ok (g : Game) (start : Pos) (goals : List Pos) (p0 p1 : Pos)
    (rest : List Pos) (h : bfsPath g start goals = some (p0 :: p1 :: rest)) :
    neighFilterOk g p1 = true := by
  simp only [bfsPath] at h
  by_cases hg : goals = []
  · rw [if_pos hg] at h
    exact Option.noConfusion h
  · rw [if_neg hg] at h
    refine bfsLoop_sound g goals (g.map.w * g.map.h + 2) [start] [(start, none)]
      (p0 :: p1 :: rest) ?_ h p0 p1 rest rfl
    intro kv hkv par hpar
    have : kv = (start, none) := List.mem_singleton.mp hkv
    rw [this] at hpar
    exact Option.noConfusion hpar

lemma fleeBest_fold_mem (g : Game) (vis : List Entity) (l : List Pos) :
    ∀ (acc : Option Pos × ℤ) (b : Pos),
      (l.foldl (fun acc c =>
        if c ≠ (g.player.x, g.player.y) ∧ isOccupied g c.1 c.2 then acc
        else if acc.2 < minDistToVis vis c then (some c, minDistToVis vis c) else acc)
        acc).1 = some b →
      acc.1 = some b ∨ b ∈ l := by
  induction l with
  | nil =>
    intro acc b h
    exact Or.inl h
  | cons c t ih =>
    intro acc b h
    simp only [List.foldl_cons] at h
    by_cases h1 : c ≠ (g.player.x, g.player.y) ∧ isOccupied g c.1 c.2 = true
    · rw [if_pos h1] at h
      rcases ih acc b h with h' | h'
      · exact Or.inl h'
      · exact Or.inr (List.mem_cons_of_mem _ h')
    · rw [if_neg h1] at h
      by_cases h2 : acc.2 < minDistToVis vis c
      · rw [if_pos h2] at h
        rcases ih _ b h with h' | h'
        · have hcb : c = b := by simpa using h'
          exact Or.inr (hcb ▸ List.mem_cons_self c t)
        · exact Or.inr (List.mem_cons_of_mem _ h')
      · rw [if_neg h2] at h
        rcases ih acc b h with h' | h'
        · exact Or.inl h'
        · exact Or.inr (List.mem_cons_of_mem _ h')

lemma fleeBest_mem (g : Game) (vis : List Entity) (b : Pos)
    (h : (fleeBest g vis).1 = some b) :
    b ∈ neighbors4 g g.player.x g.player.y ++ [(g.player.x, g.player.y)] := by
  rcases fleeBest_fold_mem g vis
      (neighbors4 g g.player.x g.player.y ++ [(g.player.x, g.player.y)]) (none, -1) b
      (by simpa only [fleeBest] using h) with h' | h'
  · exact Option.noConfusion h'
  · exact h'

lemma move_inj {g1 g2 : Game} {a b dx dy : ℤ} {s1 s2 : Option (List Pos)} {w1 w2 : String}
    (h : (some (g1, (("move" : String), some (a, b), s1, w1)) :
        Option (Game × BotResult)) = some (g2, ("move", some (dx, dy), s2, w2))) :
    a = dx ∧ b = dy := by
  injection h with h
  injection h with hg h
  injection h with hk h
  injection h with hstep h
  injection hstep with hstep
  injection hstep with h1 h2
  exact ⟨h1, h2⟩

lemma neigh_step_ok (g : Game) (best : Pos) (dx dy : ℤ)
    (hmem : best ∈ neighbors4 g g.player.x g.player.y)
    (hdx : best.1 - g.player.x = dx) (hdy : best.2 - g.player.y = dy) :
    neighFilterOk g (g.player.x + dx, g.player.y + dy) = true := by
  have hx : g.player.x + dx = best.1 := by omega
  have hy : g.player.y + dy = best.2 := by omega
  rw [hx, hy]
  exact List.of_mem_filter hmem

lemma mem_append_p0 {g : Game} {best : Pos}
    (h : best ∈ neighbors4 g g.player.x g.player.y ++ [(g.player.x, g.player.y)])
    (hne : best ≠ (g.player.x, g.player.y)) :
    best ∈ neighbors4 g g.player.x g.player.y := by
  rcases List.mem_append.mp h with h' | h'
  · exact h'
  · exact absurd (List.mem_singleton.mp h') hne

lemma bfs_move_ok (g : Game) (goals : List Pos) (q0 p1 : Pos) (rest : List Pos) (dx dy : ℤ)
    (hb : bfsPath g (g.player.x, g.player.y) goals = some (q0 :: p1 :: rest))
    (hdx : p1.1 - g.player.x = dx) (hdy : p1.2 - g.player.y = dy) :
    neighFilterOk g (g.player.x + dx, g.player.y + dy) = true := by
  have hx : g.player.x + dx = p1.1 := by omega
  have hy : g.player.y + dy = p1.2 := by omega
  rw [hx, hy]
  exact bfsPath_step_ok g (g.player.x, g.player.y) goals q0 p1 rest hb

lemma botRuleFlee_safe (g g' : Game) (dx dy : ℤ) (s : Option (List Pos)) (w : String)
    (h : botRuleFlee g = some (g', ("move", some (dx, dy), s, w))) :
    neighFilterOk g (g.player.x + dx, g.player.y + dy) = true := by
  simp only [botRuleFlee] at h
  by_cases h1 : shouldFlee g = true
  swap
  · rw [if_neg h1] at h
    exact Option.noConfusion h
  rw [if_pos h1] at h
  by_cases h2 : visibleEnemies g ≠ []
  swap
  · rw [if_neg h2] at h
    exact Option.noConfusion h
  rw [if_pos h2] at h
  rcases hfb : (fleeBest g (visibleEnemies g)).1 with _ | best
  · simp [hfb] at h
  · simp only [hfb] at h
    by_cases h3 : best ≠ (g.player.x, g.player.y)
    · rw [if_pos h3] at h
      obtain ⟨hdx, hdy⟩ := move_inj h
      exact neigh_step_ok g best dx dy
        (mem_append_p0 (fleeBest_mem g (visibleEnemies g) best hfb) h3) hdx hdy
    · rw [if_neg h3] at h
      simp at h

lemma botRuleAvoidAim_safe (g g' : Game) (dx dy : ℤ) (s : Option (List Pos)) (w : String)
    (h : botRuleAvoidAim g = some (g', ("move", some (dx, dy), s, w))) :
    neighFilterOk g (g.player.x + dx, g.player.y + dy) = true := by
  simp only [botRuleAvoidAim] at h
  by_cases h1 : archersInLineAiming g ≠ []
  swap
  · rw [if_neg h1] at h
    exact Option.noConfusion h
  rw [if_pos h1] at h
  rcases hh : ((neighbors4 g g.player.x g.player.y ++ [(g.player.x, g.player.y)]).filter
      (fun c => !(decide (c ≠ (g.player.x, g.player.y)) && isOccupied g c.1 c.2) &&
        (wouldBreakLos g c.1 c.2 (archersInLineAiming g) ||
          (archersInLineAiming g).any
            (fun a => decide (|c.1 - a.x| + |c.2 - a.y| = 1))))).head? with _ | best
  · simp only [hh] at h
    exact Option.noConfusion h
  · simp only [hh] at h
    by_cases h3 : best ≠ (g.player.x, g.player.y)
    · rw [if_pos h3] at h
      obtain ⟨hdx, hdy⟩ := move_inj h
      exact neigh_step_ok g best dx dy
        (mem_append_p0 (List.mem_of_mem_filter (mem_of_head_some hh)) h3) hdx hdy
    · rw [if_neg h3] at h
      exact Option.noConfusion h

lemma botRuleAvoidLosGeneral_safe (g g' : Game) (dx dy : ℤ) (s : Option (List Pos))
    (w : String)
    (h : botRuleAvoidLosGeneral g = some (g', ("move", some (dx, dy), s, w))) :
    neighFilterOk g (g.player.x + dx, g.player.y + dy) = true := by
  simp only [botRuleAvoidLosGeneral] at h
  by_cases h1 : (visibleEnemies g).filter
      (fun e => decide (strToLower e.name = "archer")) ≠ []
  swap
  · rw [if_neg h1] at h
    exact Option.noConfusion h
  rw [if_pos h1] at h
  by_cases h2 : inLosWithAnyArcher g
      ((visibleEnemies g).filter (fun e => decide (strToLower e.name = "archer")))
      g.player.x g.player.y = true
  swap
  · rw [if_neg h2] at h
    exact Option.noConfusion h
  rw [if_pos h2] at h
  rcases hh : ((neighbors4 g g.player.x g.player.y ++ [(g.player.x, g.player.y)]).filter
      (fun c => !(decide (c ≠ (g.player.x, g.player.y)) && isOccupied g c.1 c.2) &&
        !(inLosWithAnyArcher g
            ((visibleEnemies g).filter (fun e => decide (strToLower e.name = "archer")))
            c.1 c.2))).head? with _ | best
  · simp only [hh] at h
    exact Option.noConfusion h
  · simp only [hh] at h
    by_cases h3 : best ≠ (g.player.x, g.player.y)
    · rw [if_pos h3] at h
      obtain ⟨hdx, hdy⟩ := move_inj h
      exact neigh_step_ok g best dx dy
        (mem_append_p0 (List.mem_of_mem_filter (mem_of_head_some hh)) h3) hdx hdy
    · rw [if_neg h3] at h
      exact Option.noConfusion h

lemma botRuleExitNear_safe (g g' : Game) (dx dy : ℤ) (s : Option (List Pos)) (w : String)
    (h : botRuleExitNear g = some (g', ("move", some (dx, dy), s, w))) :
    neighFilterOk g (g.player.x + dx, g.player.y + dy) = true := by
  simp only [botRuleExitNear] at h
  rcases he : g.exitPos with _ | ep
  · simp [he] at h
  · simp only [he] at h
    by_cases h1 : (g.map.inBounds ep.1 ep.2 && gridGet g.visibleG ep.1 ep.2) = true
    swap
    · rw [if_neg h1] at h
      exact Option.noConfusion h
    rw [if_pos h1] at h
    by_cases h2 : max 1 (Int.fdiv (3 * g.player.maxHp) 10) ≤ g.player.hp ∧
        |ep.1 - g.player.x| + |ep.2 - g.player.y| ≤ 6 ∧ ¬ hasDangerousAdjacent g = true
    swap
    · rw [if_neg h2] at h
      exact Option.noConfusion h
    rw [if_pos h2] at h
    rcases hbp : bfsPath g (g.player.x, g.player.y) [ep] with _ | path
    · simp [hbp] at h
    · rcases path with _ | ⟨q0, path2⟩
      · simp [hbp] at h
      · rcases path2 with _ | ⟨p1, rest⟩
        · simp [hbp] at h
        · simp only [hbp] at h
          obtain ⟨hdx, hdy⟩ := move_inj h
          exact bfs_move_ok g [ep] q0 p1 rest dx dy hbp hdx hdy

lemma botRuleLoot_safe (g g' : Game) (dx dy : ℤ) (s : Option (List Pos)) (w : String)
    (h : botRuleLoot g = some (g', ("move", some (dx, dy), s, w))) :
    neighFilterOk g (g.player.x + dx, g.player.y + dy) = true := by
  simp only [botRuleLoot] at h
  by_cases h1 : (visibleItemsKind g "potion").map (fun it => (it.x, it.y)) ≠ []
  swap
  · rw [if_neg h1] at h
    exact Option.noConfusion h
  rw [if_pos h1] at h
  rcases hbp : bfsPath g (g.player.x, g.player.y)
      ((visibleItemsKind g "potion").map (fun it => (it.x, it.y))) with _ | path
  · simp [hbp] at h
  · rcases path with _ | ⟨q0, path2⟩
    · simp [hbp] at h
    · rcases path2 with _ | ⟨p1, rest⟩
      · simp [hbp] at h
      · simp only [hbp] at h
        obtain ⟨hdx, hdy⟩ := move_inj h
        exact bfs_move_ok g _ q0 p1 rest dx dy hbp hdx hdy

lemma botRuleChase_safe (g g' : Game) (dx dy : ℤ) (s : Option (List Pos)) (w : String)
    (h : botRuleChase g = some (g', ("move", some (dx, dy), s, w))) :
    neighFilterOk g (g.player.x + dx, g.player.y + dy) = true := by
  simp only [botRuleChase] at h
  by_cases h1 : visibleEnemies g ≠ []
  swap
  · rw [if_neg h1] at h
    exact Option.noConfusion h
  rw [if_pos h1] at h
  rcases hsort : (insSortBy (fun e1 e2 => decide (rolePri e1.name < rolePri e2.name ∨
      (rolePri e1.name = rolePri e2.name ∧
        |e1.x - g.player.x| + |e1.y - g.player.y| ≤ |e2.x - g.player.x| + |e2.y - g.player.y|)))
      (visibleEnemies g)).head? with _ | t
  · simp only [hsort] at h
    rcases hb2 : bfsPath g (g.player.x, g.player.y)
        ((visibleEnemies g).map (fun e => (e.x, e.y))) with _ | path2
    · simp [hb2] at h
    · rcases path2 with _ | ⟨q2, path3⟩
      · simp [hb2] at h
      · rcases path3 with _ | ⟨p2, rest2⟩
        · simp [hb2] at h
        · simp only [hb2] at h
          obtain ⟨hdx, hdy⟩ := move_inj h
          exact bfs_move_ok g _ q2 p2 rest2 dx dy hb2 hdx hdy
  · simp only [hsort] at h
    rcases hbp : bfsPath g (g.player.x, g.player.y) [(t.x, t.y)] with _ | path
    · simp only [hbp] at h
      rcases hb2 : bfsPath g (g.player.x, g.player.y)
          ((visibleEnemies g).map (fun e => (e.x, e.y))) with _ | path2
      · simp [hb2] at h
      · rcases path2 with _ | ⟨q2, path3⟩
        · simp [hb2] at h
        · rcases path3 with _ | ⟨p2, rest2⟩
          · simp [hb2] at h
          · simp only [hb2] at h
            obtain ⟨hdx, hdy⟩ := move_inj h
            exact bfs_move_ok g _ q2 p2 rest2 dx dy hb2 hdx hdy
    · rcases path with _ | ⟨q0, path2⟩
      · simp only [hbp] at h
        rcases hb2 : bfsPath g (g.player.x, g.player.y)
            ((visibleEnemies g).map (fun e => (e.x, e.y))) with _ | path2
        · simp [hb2] at h
        · rcases path2 with _ | ⟨q2, path3⟩
          · simp [hb2] at h
          · rcases path3 with _ | ⟨p2, rest2⟩
            · simp [hb2] at h
            · simp only [hb2] at h
              obtain ⟨hdx, hdy⟩ := move_inj h
              exact bfs_move_ok g _ q2 p2 rest2 dx dy hb2 hdx hdy
      · rcases path2 with _ | ⟨p1, rest⟩
        · simp only [hbp] at h
          rcases hb2 : bfsPath g (g.player.x, g.player.y)
              ((visibleEnemies g).map (fun e => (e.x, e.y))) with _ | path2
          · simp [hb2] at h
          · rcases path2 with _ | ⟨q2, path3⟩
            · simp [hb2] at h
            · rcases path3 with _ | ⟨p2, rest2⟩
              · simp [hb2] at h
              · simp only [hb2] at h
                obtain ⟨hdx, hdy⟩ := move_inj h
                exact bfs_move_ok g _ q2 p2 rest2 dx dy hb2 hdx hdy
        · simp only [hbp] at h
          obtain ⟨hdx, hdy⟩ := move_inj h
          exact bfs_move_ok g _ q0 p1 rest dx dy hbp hdx hdy

lemma botRuleExitFar_safe (g g' : Game) (dx dy : ℤ) (s : Option (List Pos)) (w : String)
    (h : botRuleExitFar g = some (g', ("move", some (dx, dy), s, w))) :
    neighFilterOk g (g.player.x + dx, g.player.y + dy) = true := by
  simp only [botRuleExitFar] at h
  rcases he : g.exitPos with _ | ep
  · simp [he] at h
  · simp only [he] at h
    by_cases h1 : (g.map.inBounds ep.1 ep.2 && gridGet g.visibleG ep.1 ep.2) = true
    swap
    · rw [if_neg h1] at h
      exact Option.noConfusion h
    rw [if_pos h1] at h
    rcases hbp : bfsPath g (g.player.x, g.player.y) [ep] with _ | path
    · simp [hbp] at h
    · rcases path with _ | ⟨q0, path2⟩
      · simp [hbp] at h
      · rcases path2 with _ | ⟨p1, rest⟩
        · simp [hbp] at h
        · simp only [hbp] at h
          obtain ⟨hdx, hdy⟩ := move_inj h
          exact bfs_move_ok g [ep] q0 p1 rest dx dy hbp hdx hdy

lemma botRuleExplore_safe (g g' : Game) (dx dy : ℤ) (s : Option (List Pos)) (w : String)
    (h : botRuleExplore g = some (g', ("move", some (dx, dy), s, w))) :
    neighFilterOk g (g.player.x + dx, g.player.y + dy) = true := by
  simp only [botRuleExplore] at h
  by_cases h1 : frontierTargets g ≠ []
  swap
  · rw [if_neg h1] at h
    exact Option.noConfusion h
  rw [if_pos h1] at h
  rcases hbp : bfsPath g (g.player.x, g.player.y) (frontierTargets g) with _ | path
  · simp [hbp] at h
  · rcases path with _ | ⟨q0, path2⟩
    · simp [hbp] at h
    · rcases path2 with _ | ⟨p1, rest⟩
      · simp [hbp] at h
      · simp only [hbp] at h
        obtain ⟨hdx, hdy⟩ := move_inj h
        exact bfs_move_ok g _ q0 p1 rest dx dy hbp hdx hdy

lemma botRuleAttack_safe (g g' : Game) (dx dy : ℤ) (s : Option (List Pos)) (w : String)
    (h : botRuleAttack g = some (g', ("move", some (dx, dy), s, w))) :
    ∃ e ∈ g.enemies, e.isAlive = true ∧
      e.x = g.player.x + dx ∧ e.y = g.player.y + dy := by
  simp only [botRuleAttack] at h
  by_cases h1 : (visibleEnemies g).filter
      (fun e => decide (|e.x - g.player.x| + |e.y - g.player.y| = 1)) ≠ []
  swap
  · rw [if_neg h1] at h
    exact Option.noConfusion h
  rw [if_pos h1] at h
  rcases hh : (insSortBy (fun e1 e2 => decide (rolePri e1.name < rolePri e2.name ∨
      (rolePri e1.name = rolePri e2.name ∧ e1.hp ≤ e2.hp)))
      ((visibleEnemies g).filter
        (fun e => decide (|e.x - g.player.x| + |e.y - g.player.y| = 1)))).head? with _ | t
  · simp only [hh] at h
    exact Option.noConfusion h
  · simp only [hh] at h
    obtain ⟨hdx, hdy⟩ := move_inj h
    have htmem0 : t ∈ insSortBy (fun e1 e2 => decide (rolePri e1.name < rolePri e2.name ∨
        (rolePri e1.name = rolePri e2.name ∧ e1.hp ≤ e2.hp)))
        ((visibleEnemies g).filter
          (fun e => decide (|e.x - g.player.x| + |e.y - g.player.y| = 1))) :=
      mem_of_head_some hh
    have htfil := (mem_insSortBy _ _ t).mp htmem0
    have htvis : t ∈ visibleEnemies g := List.mem_of_mem_filter htfil
    have hdist : |t.x - g.player.x| + |t.y - g.player.y| = 1 := by
      have hf := List.of_mem_filter htfil
      simpa using hf
    have htene : t ∈ g.enemies := List.mem_of_mem_filter htvis
    have halive : t.isAlive = true := by
      have hf := List.of_mem_filter htvis
      simp only [Bool.and_eq_true] at hf
      exact hf.1.1
    have hcase : (t.x = g.player.x ∧ (t.y = g.player.y + 1 ∨ t.y = g.player.y - 1)) ∨
        (t.y = g.player.y ∧ (t.x = g.player.x + 1 ∨ t.x = g.player.x - 1)) := by
      rcases abs_cases (t.x - g.player.x) with ⟨e1, e2⟩ | ⟨e1, e2⟩ <;>
        rcases abs_cases (t.y - g.player.y) with ⟨f1, f2⟩ | ⟨f1, f2⟩ <;>
        rw [e1, f1] at hdist <;> omega
    refine ⟨t, htene, halive, ?_, ?_⟩
    · rw [← hdx]
      split_ifs with a1 a2 <;> omega
    · rw [← hdy]
      split_ifs with a1 a2 <;> omega

/-- C7: every `move` decision of `bot_choose_action` targets a tile
passing the `_neighbors4` admission filter (in bounds, walkable, and a
closed door only when unlocked or a key is held) — flee/avoid steps come
from the filtered neighbour candidates, path steps are the second node of
a BFS path whose queue is only ever extended through `_neighbors4` — or
steps onto a living enemy of the roster (the attack rule's melee bump). -/
theorem planner_moves_safe (g g' : Game) (dx dy : ℤ) (s : Option (List Pos)) (w : String)
    (h : botChooseAction g = (g', ("move", some (dx, dy), s, w))) :
    neighFilterOk g (g.player.x + dx, g.player.y + dy) = true ∨
    ∃ e ∈ g.enemies, e.isAlive = true ∧
      e.x = g.player.x + dx ∧ e.y = g.player.y + dy := by
  simp only [botChooseAction] at h
  by_cases hidle : ¬ (g.state = "playing" ∧ g.player.isAlive = true)
  · rw [if_pos hidle] at h
    simp at h
  · rw [if_neg hidle] at h
    rcases h1 : botRuleFlee g with _ | r1
    swap
    · simp only [h1] at h
      exact Or.inl (botRuleFlee_safe g g' dx dy s w (h ▸ h1))
    simp only [h1] at h
    rcases h2 : botRuleAvoidAim g with _ | r2
    swap
    · simp only [h2] at h
      exact Or.inl (botRuleAvoidAim_safe g g' dx dy s w (h ▸ h2))
    simp only [h2] at h
    rcases h3 : botRuleAvoidLosGeneral g with _ | r3
    swap
    · simp only [h3] at h
      exact Or.inl (botRuleAvoidLosGeneral_safe g g' dx dy s w (h ▸ h3))
    simp only [h3] at h
    rcases h4 : botRuleExitNear g with _ | r4
    swap
    · simp only [h4] at h
      exact Or.inl (botRuleExitNear_safe g g' dx dy s w (h ▸ h4))
    simp only [h4] at h
    rcases h5 : botRuleAttack g with _ | r5
    swap
    · simp only [h5] at h
      exact Or.inr (botRuleAttack_safe g g' dx dy s w (h ▸ h5))
    simp only [h5] at h
    rcases h6 : botRuleLoot g with _ | r6
    swap
    · simp only [h6] at h
      exact Or.inl (botRuleLoot_safe g g' dx dy s w (h ▸ h6))
    simp only [h6] at h
    rcases h7 : botRuleChase g with _ | r7
    swap
    · simp only [h7] at h
      exact Or.inl (botRuleChase_safe g g' dx dy s w (h ▸ h7))
    simp only [h7] at h
    rcases h8 : botRuleExitFar g with _ | r8
    swap
    · simp only [h8] at h
      exact Or.inl (botRuleExitFar_safe g g' dx dy s w (h ▸ h8))
    simp only [h8] at h
    rcases h9 : botRuleExplore g with _ | r9
    swap
    · simp only [h9] at h
      exact Or.inl (botRuleExplore_safe g g' dx dy s w (h ▸ h9))
    simp only [h9] at h
    simp at h

/-- Witness for C7: the flee step chosen at the low-HP adjacent-goblin
state targets the admitted tile one step left. -/
theorem planner_moves_safe_witness :
    neighFilterOk gC6 (gC6.player.x + (-1), gC6.player.y + 0) = true ∨
    ∃ e ∈ gC6.enemies, e.isAlive = true ∧
      e.x = gC6.player.x + (-1) ∧ e.y = gC6.player.y + 0 :=
  planner_moves_safe gC6 gC6 (-1) 0 none "flee (low HP)" (by rfl)

end Crawler
